import Mathlib

/-!
Shallow embedding of the VF2 graph/subgraph isomorphism matcher (src/VF2.cpp)
and verification of its specified properties.

Modelling conventions, one per construct of the source:

* `VIndex` is the C++ `int` vertex index, modelled as `Int`; `NULL_VIndex = -1`.
* `Graph` keeps the vertex-label vector and the edge vector.  The source's
  intrusive linked lists `head_edge`/`next` (resp. `rev_head_edge`/`prev`)
  enumerate exactly the edges with source `u` (resp. target `v`); they are
  modelled by filtering the edge vector (`outEdges`/`inEdges`).  The rules only
  use these lists for universally/existentially quantified scans, so the
  enumeration order is irrelevant.  `pred`/`succ` are the `std::set<VIndex>`
  adjacency views, modelled as `Finset Int`.
* `std::vector` indexing `v[i]` is modelled by `getI`/`setI`; an out-of-range
  access (undefined behaviour in C++) yields `NULL_VIndex` resp. leaves the
  vector unchanged.  No theorem below relies on the value of an out-of-range
  access except where the point is precisely to exhibit one (claim C4).
* `std::set` iteration is ascending; `sortedList` (an insertion-sort
  enumeration of a `Finset`) models it where the produced order is observable
  (candidate list).
* The C++ recursion of `solve` has no structural termination measure, so the
  embedding takes an explicit `fuel : Nat`; the entry points pass
  `|V(G1)| + 1`, which the termination theorem (claim C8) proves adequate for
  every state satisfying the reachable-state invariant.
-/

def NULL_VIndex : Int := -1

structure GEdge where
  u : Int
  v : Int
  label : Int
deriving DecidableEq, Repr

/-- Graph of VF2.cpp: vertex labels (`vertex`) and the edge vector (`edge`).
`vertex_count`/`edge_count` are the lengths of these vectors, as maintained by
`addVertex`/`addEdge`. -/
structure Graph where
  vertex : List Int
  edge : List GEdge
deriving DecidableEq, Repr

def Graph.vertex_count (g : Graph) : Nat := g.vertex.length

def Graph.edge_count (g : Graph) : Nat := g.edge.length

/-- The edges enumerated from `head_edge[u]` through `next`: all edges with
source `u`. -/
def Graph.outEdges (g : Graph) (u : Int) : List GEdge :=
  g.edge.filter (fun e => e.u = u)

/-- The edges enumerated from `rev_head_edge[v]` through `prev`: all edges with
target `v`. -/
def Graph.inEdges (g : Graph) (v : Int) : List GEdge :=
  g.edge.filter (fun e => e.v = v)

/-- `pred[v]`: the set of sources of edges into `v` (built by `addEdge`). -/
def Graph.pred (g : Graph) (v : Int) : Finset Int :=
  ((g.inEdges v).map GEdge.u).toFinset

/-- `succ[u]`: the set of targets of edges out of `u` (built by `addEdge`). -/
def Graph.succ (g : Graph) (u : Int) : Finset Int :=
  ((g.outEdges u).map GEdge.v).toFinset

/-- The data-model invariant of the spec (section 3): every edge endpoint is in
range.  Graphs produced by the reader from well-formed input satisfy it. -/
def Graph.WF (g : Graph) : Prop :=
  ∀ e ∈ g.edge, 0 ≤ e.u ∧ e.u < (g.vertex_count : Int) ∧
    0 ≤ e.v ∧ e.v < (g.vertex_count : Int)

instance (g : Graph) : Decidable g.WF := by
  unfold Graph.WF; infer_instance

/-- Read `l[i]` for a C++ `int` index.  In range it is the stored value;
out of range (UB in the source) it defaults to `NULL_VIndex`. -/
def getI (l : List Int) (i : Int) : Int :=
  if 0 ≤ i then l.getD i.toNat NULL_VIndex else NULL_VIndex

/-- Write `l[i] = x`.  Out of range (UB in the source) it is a no-op. -/
def setI (l : List Int) (i : Int) (x : Int) : List Int :=
  if 0 ≤ i then l.set i.toNat x else l

/-- The vertex ids `{0, …, k-1}` as a `Finset Int`. -/
def rangeF (k : Nat) : Finset Int :=
  (Finset.range k).image (fun i => (i : Int) : Nat → Int)

/-- The vertex ids `0, …, k-1` in ascending order, as a `List Int`. -/
def rangeList (k : Nat) : List Int :=
  (List.range k).map (fun i => (i : Int) : Nat → Int)

/-- The search state of VF2.cpp.  `vertex_count` is the query's vertex count;
both core vectors are sized to it by the constructor (faithful to the source,
where this is the root of the subgraph-mode indexing bug, claim C4). -/
structure State where
  vertex_count : Nat
  subisomorphism : Bool
  in_1 : Finset Int
  in_2 : Finset Int
  out_1 : Finset Int
  out_2 : Finset Int
  M1 : Finset Int
  M2 : Finset Int
  core_1 : List Int
  core_2 : List Int
deriving DecidableEq

/-- `State::State(_count, sub)`: both core vectors have length `_count` and are
filled with `NULL_VIndex`; all sets start empty. -/
def State.init (count : Nat) (sub : Bool) : State where
  vertex_count := count
  subisomorphism := sub
  in_1 := ∅
  in_2 := ∅
  out_1 := ∅
  out_2 := ∅
  M1 := ∅
  M2 := ∅
  core_1 := List.replicate count NULL_VIndex
  core_2 := List.replicate count NULL_VIndex

/-- Insert `x` into an ascending list, keeping it ascending. -/
def insSorted (x : Int) : List Int → List Int
  | [] => [x]
  | y :: ys => if x ≤ y then x :: y :: ys else y :: insSorted x ys

instance : LeftCommutative insSorted where
  left_comm a b l := by
    induction l with
    | nil =>
      simp only [insSorted]
      split_ifs with h1 h2 h2
      · have hab : a = b := le_antisymm h1 h2
        subst hab; rfl
      · rfl
      · rfl
      · omega
    | cons y ys ih =>
      by_cases h1 : b ≤ y <;> by_cases h2 : a ≤ y
      · by_cases h3 : a ≤ b <;> by_cases h4 : b ≤ a
        · have hab : a = b := le_antisymm h3 h4
          subst hab; rfl
        · simp [insSorted, h1, h2, h3, h4]
        · simp [insSorted, h1, h2, h3, h4]
        · omega
      · have h3 : ¬ a ≤ b := by omega
        simp [insSorted, h1, h2, h3]
      · have h3 : ¬ b ≤ a := by omega
        have h4 : a ≤ b := by omega
        simp [insSorted, h1, h2, h3, h4]
      · simp [insSorted, h1, h2, ih]

/-- Ascending iteration order of a `std::set<VIndex>` (an insertion-sort
enumeration of the set; the fold is well defined because `insSorted` is
left-commutative). -/
def sortedList (s : Finset Int) : List Int :=
  Multiset.foldr insSorted [] s.val

/-- `max_vid2 = -1; for (vid2 : s) max_vid2 = max(max_vid2, vid2);` -/
def listMaxFrom (a : Int) (l : List Int) : Int :=
  l.foldl max a

/-- The downward scan `for (max_vid2 = vertex_count - 1; max_vid2 >= 0 &&
core_2[max_vid2] != NULL_VIndex; max_vid2--)`: the largest index `< k` holding
`NULL_VIndex`, or `-1` if none. -/
def scanDown (core : List Int) : Nat → Int
  | 0 => NULL_VIndex
  | k + 1 => if getI core (k : Int) = NULL_VIndex then (k : Int) else scanDown core k

/-- `State::genCandiPairSet`. -/
def State.genCandiPairSet (s : State) : List (Int × Int) :=
  if s.out_1.Nonempty ∧ s.out_2.Nonempty then
    let max_vid2 := listMaxFrom NULL_VIndex (sortedList s.out_2)
    (sortedList s.out_1).map (fun vid1 => (vid1, max_vid2))
  else if s.in_1.Nonempty ∧ s.in_2.Nonempty then
    let max_vid2 := listMaxFrom NULL_VIndex (sortedList s.in_2)
    (sortedList s.in_1).map (fun vid1 => (vid1, max_vid2))
  else
    let max_vid2 := scanDown s.core_2 s.vertex_count
    ((rangeList s.vertex_count).filter
        (fun vid => getI s.core_1 vid = NULL_VIndex)).map
      (fun vid => (vid, max_vid2))

/-- `State::addNewPair`.  The core entries are written first, so the frontier
insertions filter against the updated cores (in particular `n`, `m` themselves
are never inserted); afterwards `n`/`m` are erased from the frontiers. -/
def State.addNewPair (s : State) (n m : Int)
    (pred1 pred2 succ1 succ2 : Finset Int) : State :=
  let core_1 := setI s.core_1 n m
  let core_2 := setI s.core_2 m n
  { s with
    M1 := insert n s.M1
    M2 := insert m s.M2
    core_1 := core_1
    core_2 := core_2
    in_1 := (s.in_1 ∪ pred1.filter (fun u => getI core_1 u = NULL_VIndex)).erase n
    in_2 := (s.in_2 ∪ pred2.filter (fun u => getI core_2 u = NULL_VIndex)).erase m
    out_1 := (s.out_1 ∪ succ1.filter (fun u => getI core_1 u = NULL_VIndex)).erase n
    out_2 := (s.out_2 ∪ succ2.filter (fun u => getI core_2 u = NULL_VIndex)).erase m }

/-- `State::checkPredRule`: every outgoing G1 edge of `n` whose target is
already mapped must have a label-matching counterpart out of `m`; and every
mapped G2 predecessor of `m` must map back to a G1 predecessor of `n`. -/
def State.checkPredRule (s : State) (G1 G2 : Graph) (n m : Int) : Bool :=
  ((G1.outEdges n).all (fun e =>
      let map_vid := getI s.core_1 e.v
      if map_vid = NULL_VIndex then true
      else (G2.outEdges m).any (fun e2 =>
        decide (e2.v = map_vid ∧ e2.label = e.label)))) &&
  ((sortedList (s.M2 ∩ G2.pred m)).all (fun v2 =>
      decide (getI s.core_2 v2 ∈ G1.pred n)))

/-- `State::checkSuccRule`: mirror image of `checkPredRule` on incoming edges
and successors. -/
def State.checkSuccRule (s : State) (G1 G2 : Graph) (n m : Int) : Bool :=
  ((G1.inEdges n).all (fun e =>
      let map_vid := getI s.core_1 e.u
      if map_vid = NULL_VIndex then true
      else (G2.inEdges m).any (fun e2 =>
        decide (e2.u = map_vid ∧ e2.label = e.label)))) &&
  ((sortedList (s.M2 ∩ G2.succ m)).all (fun v2 =>
      decide (getI s.core_2 v2 ∈ G1.succ n)))

/-- `State::set_intersection_size`. -/
def set_intersection_size (a b : Finset Int) : Nat :=
  (a ∩ b).card

/-- `State::checkInRule`, gate for gate as in the source.  Note the third
comparison is gated on `subisomorphism` (not `!subisomorphism`) in the source;
this embedding preserves that (see claim C2). -/
def State.checkInRule (s : State) (G1 G2 : Graph) (n m : Int) : Bool :=
  let card_succ_1 := set_intersection_size s.in_1 (G1.succ n)
  let card_succ_2 := set_intersection_size s.in_2 (G2.succ m)
  if s.subisomorphism = false ∧ card_succ_1 ≠ card_succ_2 then false
  else if s.subisomorphism = true ∧ card_succ_1 > card_succ_2 then false
  else
    let card_pred_1 := set_intersection_size s.in_1 (G1.pred n)
    let card_pred_2 := set_intersection_size s.in_2 (G2.pred m)
    if s.subisomorphism = true ∧ card_pred_1 ≠ card_pred_2 then false
    else if s.subisomorphism = true ∧ card_pred_1 > card_pred_2 then false
    else true

/-- `State::checkOutRule`. -/
def State.checkOutRule (s : State) (G1 G2 : Graph) (n m : Int) : Bool :=
  let card_succ_1 := set_intersection_size s.out_1 (G1.succ n)
  let card_succ_2 := set_intersection_size s.out_2 (G2.succ m)
  if s.subisomorphism = false ∧ card_succ_1 ≠ card_succ_2 then false
  else if s.subisomorphism = true ∧ card_succ_1 > card_succ_2 then false
  else
    let card_pred_1 := set_intersection_size s.out_1 (G1.pred n)
    let card_pred_2 := set_intersection_size s.out_2 (G2.pred m)
    if s.subisomorphism = false ∧ card_pred_1 ≠ card_pred_2 then false
    else if s.subisomorphism = true ∧ card_pred_1 > card_pred_2 then false
    else true

/-- `State::genComplementary`: the vertices `vid < count` that are unmapped and
in neither frontier set.  It reads `core[vid]` for every `vid < count`. -/
def genComplementary (count : Nat) (core : List Int)
    (inSet outSet : Finset Int) : Finset Int :=
  (rangeF count).filter
    (fun vid => getI core vid = NULL_VIndex ∧ vid ∉ inSet ∧ vid ∉ outSet)

/-- `State::checkNewRule`. -/
def State.checkNewRule (s : State) (G1 G2 : Graph) (n m : Int) : Bool :=
  let N1 := genComplementary G1.vertex_count s.core_1 s.in_1 s.out_1
  let N2 := genComplementary G2.vertex_count s.core_2 s.in_2 s.out_2
  let card_pred_1 := set_intersection_size (G1.pred n) N1
  let card_pred_2 := set_intersection_size (G2.pred m) N2
  if s.subisomorphism = false ∧ card_pred_1 ≠ card_pred_2 then false
  else if s.subisomorphism = true ∧ card_pred_1 > card_pred_2 then false
  else
    let card_succ_1 := set_intersection_size (G1.succ n) N1
    let card_succ_2 := set_intersection_size (G2.succ m) N2
    if s.subisomorphism = false ∧ card_succ_1 ≠ card_succ_2 then false
    else if s.subisomorphism = true ∧ card_succ_1 > card_succ_2 then false
    else true

/-- `State::checkSynRules`. -/
def State.checkSynRules (s : State) (G1 G2 : Graph) (n m : Int) : Bool :=
  s.checkPredRule G1 G2 n m && s.checkSuccRule G1 G2 n m &&
  s.checkInRule G1 G2 n m && s.checkOutRule G1 G2 n m &&
  s.checkNewRule G1 G2 n m

/-- `State::checkSemRules`: equal vertex labels. -/
def State.checkSemRules (s : State) (G1 G2 : Graph) (n m : Int) : Bool :=
  decide (getI G1.vertex n = getI G2.vertex m)

/-- `solve(G1, G2, state)` with explicit fuel (see the header comment). -/
def solve (G1 G2 : Graph) : Nat → State → Bool
  | 0, _ => false
  | fuel + 1, s =>
    if s.M1.card = s.vertex_count then true
    else
      s.genCandiPairSet.any (fun p =>
        if s.checkSemRules G1 G2 p.1 p.2 && s.checkSynRules G1 G2 p.1 p.2 then
          solve G1 G2 fuel
            (s.addNewPair p.1 p.2 (G1.pred p.1) (G2.pred p.2)
              (G1.succ p.1) (G2.succ p.2))
        else false)

/-- `isomorphism(G1, G2)`. -/
def isomorphism (G1 G2 : Graph) : Bool :=
  if G1.vertex_count ≠ G2.vertex_count then false
  else if G1.edge_count ≠ G2.edge_count then false
  else solve G1 G2 (G1.vertex_count + 1) (State.init G1.vertex_count false)

/-- `subisomorphism(G1, G2)`. -/
def subisomorphism (G1 G2 : Graph) : Bool :=
  if G1.vertex_count > G2.vertex_count then false
  else if G1.edge_count > G2.edge_count then false
  else solve G1 G2 (G1.vertex_count + 1) (State.init G1.vertex_count true)

/-! ## Specification-side notions

`hasEdge`, `IsoWitness` and `SubIsoWitness` formalise the spec's glossary:
`(u, v, L) ∈ E(G)` means some edge of `G` has that source, target and label
(edge multiplicity is not part of the spec's membership statement). -/

def hasEdge (g : Graph) (u v L : Int) : Prop :=
  ∃ e ∈ g.edge, e.u = u ∧ e.v = v ∧ e.label = L

instance (g : Graph) (u v L : Int) : Decidable (hasEdge g u v L) := by
  unfold hasEdge; infer_instance

/-- The spec's exact-isomorphism witness: a label-preserving bijection `f` from
the vertices of `G1` onto those of `G2` with `(u, v, L) ∈ E(G1)` iff
`(f u, f v, L) ∈ E(G2)`.  The backward direction is phrased per edge of `G2`. -/
def IsoWitness (G1 G2 : Graph) (f : Int → Int) : Prop :=
  (∀ v ∈ rangeF G1.vertex_count, f v ∈ rangeF G2.vertex_count) ∧
  (∀ v ∈ rangeF G1.vertex_count, ∀ w ∈ rangeF G1.vertex_count, f v = f w → v = w) ∧
  (∀ w ∈ rangeF G2.vertex_count, ∃ v ∈ rangeF G1.vertex_count, f v = w) ∧
  (∀ v ∈ rangeF G1.vertex_count, getI G1.vertex v = getI G2.vertex (f v)) ∧
  (∀ e ∈ G1.edge, hasEdge G2 (f e.u) (f e.v) e.label) ∧
  (∀ u ∈ rangeF G1.vertex_count, ∀ v ∈ rangeF G1.vertex_count,
    ∀ e2 ∈ G2.edge, e2.u = f u → e2.v = f v → hasEdge G1 u v e2.label)

/-- The spec's subgraph-isomorphism witness: an injective label-preserving map
carrying every labeled edge of `G1` to an identically labeled edge of `G2`. -/
def SubIsoWitness (G1 G2 : Graph) (f : Int → Int) : Prop :=
  (∀ v ∈ rangeF G1.vertex_count, f v ∈ rangeF G2.vertex_count) ∧
  (∀ v ∈ rangeF G1.vertex_count, ∀ w ∈ rangeF G1.vertex_count, f v = f w → v = w) ∧
  (∀ v ∈ rangeF G1.vertex_count, getI G1.vertex v = getI G2.vertex (f v)) ∧
  (∀ e ∈ G1.edge, hasEdge G2 (f e.u) (f e.v) e.label)

/-- Modelled from the spec: rule R2 as section 4.4 states it, with both
cardinality comparisons sharpened to equality in exact mode and relaxed to
`≤` in subgraph mode. -/
def specInRule (s : State) (G1 G2 : Graph) (n m : Int) : Bool :=
  let a := set_intersection_size s.in_1 (G1.succ n)
  let b := set_intersection_size s.in_2 (G2.succ m)
  let c := set_intersection_size s.in_1 (G1.pred n)
  let d := set_intersection_size s.in_2 (G2.pred m)
  if s.subisomorphism then decide (a ≤ b ∧ c ≤ d) else decide (a = b ∧ c = d)

/-- The in-bounds condition for the two `genComplementary` calls inside
`checkNewRule`: they read `core_1[vid]` for every `vid < G1.vertex_count` and
`core_2[vid]` for every `vid < G2.vertex_count`. -/
def checkNewRuleInBounds (s : State) (G1 G2 : Graph) : Prop :=
  G1.vertex_count ≤ s.core_1.length ∧ G2.vertex_count ≤ s.core_2.length

instance (s : State) (G1 G2 : Graph) : Decidable (checkNewRuleInBounds s G1 G2) := by
  unfold checkNewRuleInBounds; infer_instance

theorem mem_rangeF {k : Nat} {v : Int} : v ∈ rangeF k ↔ 0 ≤ v ∧ v < (k : Int) := by
  unfold rangeF
  simp only [Finset.mem_image, Finset.mem_range]
  constructor
  · rintro ⟨i, hi, rfl⟩
    exact ⟨Int.ofNat_nonneg i, by exact_mod_cast hi⟩
  · rintro ⟨h0, hk⟩
    exact ⟨v.toNat, by omega, by omega⟩

/-! ## Concrete graphs used by the claim theorems -/

/-- One vertex labeled 5, with a self-loop labeled 7. -/
def g1C1 : Graph := ⟨[5], [⟨0, 0, 7⟩]⟩

/-- One vertex labeled 5, with a self-loop labeled 8. -/
def g2C1 : Graph := ⟨[5], [⟨0, 0, 8⟩]⟩

/-- One vertex labeled 1, no edges. -/
def g1C5 : Graph := ⟨[1], []⟩

/-- Two vertices labeled 0 and 1, no edges. -/
def g2C5 : Graph := ⟨[0, 1], []⟩

/-- One vertex labeled 0, no edges. -/
def g1C4 : Graph := ⟨[0], []⟩

/-- Two vertices labeled 0, no edges. -/
def g2C4 : Graph := ⟨[0, 0], []⟩

/-- Two vertices labeled 0 with one edge 0 → 1 labeled 0. -/
def gPath : Graph := ⟨[0, 0], [⟨0, 1, 0⟩]⟩

/-- Two vertices labeled 0, no edges. -/
def gNoEdge : Graph := ⟨[0, 0], []⟩

/-- An exact-mode state for the `checkInRule` divergence: candidate (1, 1),
`in_1 = {0}` and `in_2 = ∅`, nothing mapped. -/
def sC2exact : State where
  vertex_count := 2
  subisomorphism := false
  in_1 := {0}
  in_2 := ∅
  out_1 := ∅
  out_2 := ∅
  M1 := ∅
  M2 := ∅
  core_1 := [-1, -1]
  core_2 := [-1, -1]

/-- A subgraph-mode state for the `checkInRule` divergence: candidate (1, 1),
`in_1 = ∅` and `in_2 = {0}`, nothing mapped. -/
def sC2sub : State where
  vertex_count := 2
  subisomorphism := true
  in_1 := ∅
  in_2 := {0}
  out_1 := ∅
  out_2 := ∅
  M1 := ∅
  M2 := ∅
  core_1 := [-1, -1]
  core_2 := [-1, -1]

/-! ## Claim theorems: C1, C2, C3 (counterexample), C4, C5 -/

/-- Claim C1 (code bug): the matchers are not sound.  On the failing input
`g1C1` (one vertex labeled 5 with a self-loop labeled 7) and `g2C1` (same
vertex, self-loop labeled 8), both `isomorphism` and `subisomorphism` return
true, yet no label-preserving vertex mapping relates the two graphs: the spec's
soundness property demands a bijection matching the loop labels for
`isomorphism` and an injection carrying edge (0,0,7) into G2 for
`subisomorphism`, and neither exists.  The slip: `checkPredRule` and
`checkSuccRule` skip every edge whose other endpoint is unmapped, so a
self-loop at the candidate vertex itself (unmapped at check time) is never
label-compared. -/
theorem c1_soundness_bug :
    isomorphism g1C1 g2C1 = true ∧ subisomorphism g1C1 g2C1 = true ∧
    (¬ ∃ f : Int → Int, IsoWitness g1C1 g2C1 f) ∧
    (¬ ∃ f : Int → Int, SubIsoWitness g1C1 g2C1 f) := by
  refine ⟨by decide, by decide, ?_, ?_⟩
  · rintro ⟨f, hmap, hinj, hsurj, hlab, hfwd, hbwd⟩
    have h0 : f 0 ∈ rangeF g2C1.vertex_count := hmap 0 (by decide)
    have hf0 : f 0 = 0 := by
      have h := mem_rangeF.mp h0
      norm_num [g2C1, Graph.vertex_count] at h
      omega
    have hE := hfwd ⟨0, 0, 7⟩ (by simp [g1C1])
    rw [hf0] at hE
    obtain ⟨e, he, h1, h2, h3⟩ := hE
    simp only [g2C1, List.mem_singleton] at he
    subst he
    simp at h3
  · rintro ⟨f, hmap, hinj, hlab, hfwd⟩
    have h0 : f 0 ∈ rangeF g2C1.vertex_count := hmap 0 (by decide)
    have hf0 : f 0 = 0 := by
      have h := mem_rangeF.mp h0
      norm_num [g2C1, Graph.vertex_count] at h
      omega
    have hE := hfwd ⟨0, 0, 7⟩ (by simp [g1C1])
    rw [hf0] at hE
    obtain ⟨e, he, h1, h2, h3⟩ := hE
    simp only [g2C1, List.mem_singleton] at he
    subst he
    simp at h3

/-- Claim C2 (code bug): `checkInRule` does not implement rule R2 as the spec
states it.  In the exact-mode state `sC2exact` (candidate (1,1) on a one-edge
path versus an edgeless graph, where c = 1 and d = 0), the source returns true
while R2 demands c = d; in the subgraph-mode state `sC2sub` (the mirror image,
c = 0 and d = 1), the source returns false while R2 demands only c ≤ d.  The
slip is the comparison gated on `subisomorphism` where the symmetric reading
requires the exact mode. -/
theorem c2_in_rule_divergence :
    (sC2exact.checkInRule gPath gNoEdge 1 1 = true ∧
      specInRule sC2exact gPath gNoEdge 1 1 = false) ∧
    (sC2sub.checkInRule gNoEdge gPath 1 1 = false ∧
      specInRule sC2sub gNoEdge gPath 1 1 = true) := by
  refine ⟨⟨by decide, by decide⟩, by decide, by decide⟩

/-- Claim C3 (counterexample): in the initial state of
`subisomorphism(g1C4, g2C4)` (query with one vertex, data graph with two), all
frontier sets are empty, so the disconnected/initial case fires; the largest G2
vertex id with an unmapped `core_2` entry is 1, yet `genCandiPairSet` emits
`[(0, 0)]`: the source scans ids only below the state's `vertex_count`, which
is the query's vertex count, not G2's. -/
theorem c3_counterexample :
    (State.init g1C4.vertex_count true).genCandiPairSet = [(0, 0)] ∧
    scanDown (State.init g1C4.vertex_count true).core_2 g2C4.vertex_count = 1 ∧
    (1 : Int) ≠ 0 := by
  refine ⟨by decide, by decide, by decide⟩

/-- Claim C4 (code bug): in subgraph mode `core_2` is not defined for every G2
vertex.  On the failing input `subisomorphism(g1C4, g2C4)` the size guards pass
(1 ≤ 2 vertices, 0 ≤ 0 edges), the initial state emits the candidate (0, 0),
which passes the semantic, pred, succ, in and out rules, so `checkNewRule` is
reached — and its `genComplementary` call over G2 reads `core_2[vid]` for every
`vid < 2` while `core_2` has length 1 (an out-of-bounds read in the source). -/
theorem c4_core2_out_of_bounds :
    (¬ g1C4.vertex_count > g2C4.vertex_count) ∧
    (¬ g1C4.edge_count > g2C4.edge_count) ∧
    (0, 0) ∈ (State.init g1C4.vertex_count true).genCandiPairSet ∧
    (State.init g1C4.vertex_count true).checkSemRules g1C4 g2C4 0 0 = true ∧
    (State.init g1C4.vertex_count true).checkPredRule g1C4 g2C4 0 0 = true ∧
    (State.init g1C4.vertex_count true).checkSuccRule g1C4 g2C4 0 0 = true ∧
    (State.init g1C4.vertex_count true).checkInRule g1C4 g2C4 0 0 = true ∧
    (State.init g1C4.vertex_count true).checkOutRule g1C4 g2C4 0 0 = true ∧
    ¬ checkNewRuleInBounds (State.init g1C4.vertex_count true) g1C4 g2C4 := by
  refine ⟨by decide, by decide, by decide, by decide, by decide, by decide,
    by decide, by decide, by decide⟩

/-- Claim C5 (code bug): subisomorphism is not monotone.  On the failing input
`g1C5` (one vertex labeled 1) and `g2C5` (vertices labeled 0 and 1), the map
sending vertex 0 to vertex 1 is an injective label-preserving embedding of G1
into G2, yet `subisomorphism` returns false: candidate generation only proposes
G2 ids below `|V(G1)|`, so the only candidate is (0, 0), which fails the label
rule. -/
theorem c5_monotonicity_fails :
    SubIsoWitness g1C5 g2C5 (fun v => v + 1) ∧
    subisomorphism g1C5 g2C5 = false := by
  exact ⟨⟨by decide, by decide, by decide, by decide⟩, by decide⟩

/-! ## Basic lemmas about the embedding's primitives -/

theorem getI_neg {l : List Int} {i : Int} (h : i < 0) : getI l i = NULL_VIndex := by
  unfold getI
  rw [if_neg (by omega)]

theorem getI_oob {l : List Int} {i : Int} (h : (l.length : Int) ≤ i) :
    getI l i = NULL_VIndex := by
  unfold getI
  split
  · rw [List.getD_eq_getElem?_getD, List.getElem?_eq_none (by omega)]
    rfl
  · rfl

theorem getI_replicate {k : Nat} {i : Int} :
    getI (List.replicate k NULL_VIndex) i = NULL_VIndex := by
  unfold getI
  split
  · rw [List.getD_eq_getElem?_getD, List.getElem?_replicate]
    split <;> rfl
  · rfl

theorem length_setI (l : List Int) (i x : Int) : (setI l i x).length = l.length := by
  unfold setI
  split <;> simp

theorem getI_setI_self {l : List Int} {i : Int} (h0 : 0 ≤ i)
    (h : i < (l.length : Int)) (x : Int) : getI (setI l i x) i = x := by
  unfold getI setI
  rw [if_pos h0, if_pos h0, List.getD_eq_getElem?_getD,
    List.getElem?_set_self (by omega)]
  rfl

theorem getI_setI_ne (l : List Int) (i x : Int) {j : Int} (h : j ≠ i) :
    getI (setI l i x) j = getI l j := by
  unfold getI setI
  by_cases h0 : 0 ≤ i
  · by_cases hj : 0 ≤ j
    · rw [if_pos h0, if_pos hj, if_pos hj, List.getD_eq_getElem?_getD,
        List.getD_eq_getElem?_getD, List.getElem?_set_ne (by omega)]
    · rw [if_pos h0, if_neg hj, if_neg hj]
  · rw [if_neg h0]

theorem card_rangeF (k : Nat) : (rangeF k).card = k := by
  unfold rangeF
  rw [Finset.card_image_of_injective _ (fun a b h => by omega)]
  exact Finset.card_range k

theorem mem_rangeList {k : Nat} {v : Int} : v ∈ rangeList k ↔ 0 ≤ v ∧ v < (k : Int) := by
  unfold rangeList
  simp only [List.mem_map, List.mem_range]
  constructor
  · rintro ⟨i, hi, rfl⟩
    exact ⟨Int.ofNat_nonneg i, by exact_mod_cast hi⟩
  · rintro ⟨h0, hk⟩
    exact ⟨v.toNat, by omega, by omega⟩

theorem mem_insSorted {x a : Int} {l : List Int} :
    x ∈ insSorted a l ↔ x = a ∨ x ∈ l := by
  induction l with
  | nil => simp [insSorted]
  | cons y ys ih =>
    simp only [insSorted]
    rcases le_or_lt a y with hy | hy
    · rw [if_pos hy]
      simp only [List.mem_cons]
    · rw [if_neg (not_le.mpr hy)]
      simp only [List.mem_cons, ih]
      tauto

theorem mem_foldr_insSorted {x : Int} (m : Multiset Int) :
    x ∈ Multiset.foldr insSorted [] m ↔ x ∈ m := by
  induction m using Multiset.induction_on with
  | empty => simp
  | cons a t ih =>
    rw [Multiset.foldr_cons, mem_insSorted]
    simp [ih]

theorem mem_sortedList {x : Int} {s : Finset Int} : x ∈ sortedList s ↔ x ∈ s := by
  rw [sortedList, mem_foldr_insSorted]
  exact Iff.rfl

theorem le_listMaxFrom_init (a : Int) (l : List Int) : a ≤ listMaxFrom a l := by
  induction l generalizing a with
  | nil => simp [listMaxFrom]
  | cons y ys ih =>
    simp only [listMaxFrom, List.foldl_cons]
    exact le_trans (le_max_left a y) (ih (max a y))

theorem listMaxFrom_le_of_mem {a x : Int} {l : List Int} (h : x ∈ l) :
    x ≤ listMaxFrom a l := by
  induction l generalizing a with
  | nil => cases h
  | cons y ys ih =>
    simp only [listMaxFrom, List.foldl_cons]
    rcases List.mem_cons.mp h with rfl | h'
    · exact le_trans (le_max_right a x) (le_listMaxFrom_init _ ys)
    · exact ih h'

theorem listMaxFrom_mem (a : Int) (l : List Int) :
    listMaxFrom a l = a ∨ listMaxFrom a l ∈ l := by
  induction l generalizing a with
  | nil => left; rfl
  | cons y ys ih =>
    simp only [listMaxFrom, List.foldl_cons]
    rcases ih (max a y) with h | h
    · rcases max_choice a y with hm | hm
      · left
        rw [show listMaxFrom (max a y) ys = List.foldl max (max a y) ys from rfl] at h
        rw [h, hm]
      · right
        rw [show listMaxFrom (max a y) ys = List.foldl max (max a y) ys from rfl] at h
        rw [h, hm]
        exact List.mem_cons_self y ys
    · right
      exact List.mem_cons_of_mem y h

theorem scanDown_spec (core : List Int) (k : Nat) :
    scanDown core k = NULL_VIndex ∨
    (0 ≤ scanDown core k ∧ scanDown core k < (k : Int) ∧
      getI core (scanDown core k) = NULL_VIndex) := by
  induction k with
  | zero => left; rfl
  | succ n ih =>
    by_cases h : getI core (n : Int) = NULL_VIndex
    · right
      simp only [scanDown, if_pos h]
      exact ⟨by omega, by omega, h⟩
    · simp only [scanDown, if_neg h]
      rcases ih with h1 | ⟨h1, h2, h3⟩
      · left; exact h1
      · right; exact ⟨h1, by omega, h3⟩

theorem scanDown_ne_null (core : List Int) (k : Nat)
    (h : ∃ j : Nat, j < k ∧ getI core (j : Int) = NULL_VIndex) :
    scanDown core k ≠ NULL_VIndex := by
  induction k with
  | zero =>
    obtain ⟨j, hj, _⟩ := h
    omega
  | succ n ih =>
    by_cases hn : getI core (n : Int) = NULL_VIndex
    · simp only [scanDown, if_pos hn]
      intro heq
      simp only [NULL_VIndex] at heq
      omega
    · simp only [scanDown, if_neg hn]
      apply ih
      obtain ⟨j, hj, hcore⟩ := h
      refine ⟨j, ?_, hcore⟩
      rcases Nat.lt_succ_iff_lt_or_eq.mp hj with h' | h'
      · exact h'
      · subst h'
        exact absurd hcore hn

theorem scanDown_max (core : List Int) (k : Nat) {j : Nat} (hj : j < k)
    (h : scanDown core k < (j : Int)) : getI core (j : Int) ≠ NULL_VIndex := by
  induction k with
  | zero => omega
  | succ n ih =>
    by_cases hn : getI core (n : Int) = NULL_VIndex
    · simp only [scanDown, if_pos hn] at h
      omega
    · simp only [scanDown, if_neg hn] at h
      rcases Nat.lt_succ_iff_lt_or_eq.mp hj with h' | h'
      · exact ih h' h
      · subst h'
        exact hn

theorem list_any_of_mem {α : Type} {l : List α} {f : α → Bool} {a : α}
    (ha : a ∈ l) (h : f a = true) : l.any f = true :=
  List.any_eq_true.mpr ⟨a, ha, h⟩

theorem list_any_congr {α : Type} {l : List α} {f g : α → Bool}
    (h : ∀ a ∈ l, f a = g a) : l.any f = l.any g := by
  induction l with
  | nil => rfl
  | cons x xs ih =>
    simp only [List.any_cons]
    rw [h x (by simp), ih (fun a ha => h a (by simp [ha]))]

/-- Claim C3 (amended): in the disconnected/initial case (a frontier pair is
empty on each side) with at least one unmapped `core_2` entry below the
state's `vertex_count`, `genCandiPairSet` chooses `m*` as the largest vertex
id strictly below the state's `vertex_count` — the query graph's vertex count,
not G2's — whose `core_2` entry is UNMAPPED, and emits `(n, m*)` for exactly
those G1 vertices `n` with `core_1[n] = UNMAPPED`. -/
theorem c3_amended (s : State)
    (h1 : ¬(s.out_1.Nonempty ∧ s.out_2.Nonempty))
    (h2 : ¬(s.in_1.Nonempty ∧ s.in_2.Nonempty))
    (hex : ∃ j : Nat, j < s.vertex_count ∧ getI s.core_2 (j : Int) = NULL_VIndex) :
    ∃ mstar : Int,
      0 ≤ mstar ∧ mstar < (s.vertex_count : Int) ∧
      getI s.core_2 mstar = NULL_VIndex ∧
      (∀ j : Nat, j < s.vertex_count → mstar < (j : Int) →
        getI s.core_2 (j : Int) ≠ NULL_VIndex) ∧
      (∀ q : Int × Int, q ∈ s.genCandiPairSet ↔
        0 ≤ q.1 ∧ q.1 < (s.vertex_count : Int) ∧
        getI s.core_1 q.1 = NULL_VIndex ∧ q.2 = mstar) := by
  have hne := scanDown_ne_null s.core_2 s.vertex_count hex
  rcases scanDown_spec s.core_2 s.vertex_count with h | ⟨hs0, hs1, hs2⟩
  · exact absurd h hne
  refine ⟨scanDown s.core_2 s.vertex_count, hs0, hs1, hs2, ?_, ?_⟩
  · intro j hj hlt
    exact scanDown_max s.core_2 s.vertex_count hj hlt
  · intro q
    unfold State.genCandiPairSet
    rw [if_neg h1, if_neg h2]
    simp only [List.mem_map, List.mem_filter, decide_eq_true_eq]
    constructor
    · rintro ⟨vid, ⟨hvr, hvc⟩, rfl⟩
      have h := mem_rangeList.mp hvr
      exact ⟨h.1, h.2, hvc, rfl⟩
    · rintro ⟨hq0, hq1, hqc, hq2⟩
      refine ⟨q.1, ⟨mem_rangeList.mpr ⟨hq0, hq1⟩, hqc⟩, ?_⟩
      rw [← hq2]

/-- Witness for the amended claim C3, at the initial state of
`subisomorphism(g1C4, g2C4)`: the hypotheses hold and the conclusion follows
by applying the theorem (here m* = 0, the only id below the state's
vertex_count 1). -/
theorem c3_amended_witness :
    (¬((State.init 1 true).out_1.Nonempty ∧ (State.init 1 true).out_2.Nonempty)) ∧
    (¬((State.init 1 true).in_1.Nonempty ∧ (State.init 1 true).in_2.Nonempty)) ∧
    (∃ j : Nat, j < (State.init 1 true).vertex_count ∧
      getI (State.init 1 true).core_2 (j : Int) = NULL_VIndex) ∧
    (∃ mstar : Int,
      0 ≤ mstar ∧ mstar < ((State.init 1 true).vertex_count : Int) ∧
      getI (State.init 1 true).core_2 mstar = NULL_VIndex ∧
      (∀ j : Nat, j < (State.init 1 true).vertex_count → mstar < (j : Int) →
        getI (State.init 1 true).core_2 (j : Int) ≠ NULL_VIndex) ∧
      (∀ q : Int × Int, q ∈ (State.init 1 true).genCandiPairSet ↔
        0 ≤ q.1 ∧ q.1 < ((State.init 1 true).vertex_count : Int) ∧
        getI (State.init 1 true).core_1 q.1 = NULL_VIndex ∧ q.2 = mstar)) :=
  ⟨by decide, by decide, ⟨0, by decide, by decide⟩,
    c3_amended (State.init 1 true) (by decide) (by decide)
      ⟨0, by decide, by decide⟩⟩

/-! ## Claim C6: self-matching

The proof follows the identity branch of the search: matching a graph against
itself, the state reached by repeatedly extending with pairs `(v, v)` is
symmetric between its two sides, every rule passes on the next identity pair,
and `genCandiPairSet` always offers one. -/

theorem pred_subset_rangeF {G : Graph} (hw : G.WF) (v : Int) :
    G.pred v ⊆ rangeF G.vertex_count := by
  intro u hu
  unfold Graph.pred Graph.inEdges at hu
  rw [List.mem_toFinset] at hu
  obtain ⟨e, he, rfl⟩ := List.mem_map.mp hu
  have := hw e (List.mem_filter.mp he).1
  rw [mem_rangeF]
  exact ⟨this.1, this.2.1⟩

theorem succ_subset_rangeF {G : Graph} (hw : G.WF) (v : Int) :
    G.succ v ⊆ rangeF G.vertex_count := by
  intro u hu
  unfold Graph.succ Graph.outEdges at hu
  rw [List.mem_toFinset] at hu
  obtain ⟨e, he, rfl⟩ := List.mem_map.mp hu
  have := hw e (List.mem_filter.mp he).1
  rw [mem_rangeF]
  exact ⟨this.2.2.1, this.2.2.2⟩

/-- The invariant of the identity branch when matching `G` against itself:
the state is symmetric between its two sides, every mapped vertex is mapped to
itself, `M1` agrees with the core vector, and the frontier sets hold only
unmapped in-range vertices. -/
structure IdInv (G : Graph) (s : State) : Prop where
  cnt : s.vertex_count = G.vertex_count
  len1 : s.core_1.length = G.vertex_count
  sym_core : s.core_1 = s.core_2
  sym_in : s.in_1 = s.in_2
  sym_out : s.out_1 = s.out_2
  sym_M : s.M1 = s.M2
  idc : ∀ v ∈ rangeF G.vertex_count,
    getI s.core_1 v = NULL_VIndex ∨ getI s.core_1 v = v
  hM : s.M1 = (rangeF G.vertex_count).filter
    (fun v => getI s.core_1 v ≠ NULL_VIndex)
  din : s.in_1 ⊆ rangeF G.vertex_count ∧
    ∀ u ∈ s.in_1, getI s.core_1 u = NULL_VIndex
  dout : s.out_1 ⊆ rangeF G.vertex_count ∧
    ∀ u ∈ s.out_1, getI s.core_1 u = NULL_VIndex

theorem idInv_init (G : Graph) (b : Bool) :
    IdInv G (State.init G.vertex_count b) where
  cnt := rfl
  len1 := List.length_replicate _ _
  sym_core := rfl
  sym_in := rfl
  sym_out := rfl
  sym_M := rfl
  idc := fun v _ => Or.inl getI_replicate
  hM := by
    ext v
    simp [State.init, getI_replicate]
  din := ⟨by simp [State.init], by simp [State.init]⟩
  dout := ⟨by simp [State.init], by simp [State.init]⟩

theorem idInv_card_le (G : Graph) (s : State) (hinv : IdInv G s) :
    s.M1.card ≤ s.vertex_count := by
  rw [hinv.hM, hinv.cnt]
  calc ((rangeF G.vertex_count).filter _).card
      ≤ (rangeF G.vertex_count).card := Finset.card_filter_le _ _
    _ = G.vertex_count := card_rangeF _

theorem id_checkSemRules (G : Graph) (s : State) (v : Int) :
    s.checkSemRules G G v v = true := by
  unfold State.checkSemRules
  simp

theorem id_checkPredRule (G : Graph) (hw : G.WF) (s : State) (hinv : IdInv G s)
    (v : Int) : s.checkPredRule G G v v = true := by
  unfold State.checkPredRule
  rw [Bool.and_eq_true]
  constructor
  · rw [List.all_eq_true]
    intro e he
    by_cases hmap : getI s.core_1 e.v = NULL_VIndex
    · simp [hmap]
    · have hev : e.v ∈ rangeF G.vertex_count := by
        have hb := hw e (List.mem_filter.mp he).1
        rw [mem_rangeF]
        exact ⟨hb.2.2.1, hb.2.2.2⟩
      have hid : getI s.core_1 e.v = e.v := (hinv.idc e.v hev).resolve_left hmap
      simp only [if_neg hmap]
      rw [List.any_eq_true]
      exact ⟨e, he, by rw [hid]; simp⟩
  · rw [List.all_eq_true]
    intro v2 hv2
    rw [mem_sortedList, Finset.mem_inter, ← hinv.sym_M] at hv2
    obtain ⟨hv2M, hv2p⟩ := hv2
    rw [hinv.hM, Finset.mem_filter] at hv2M
    have hid : getI s.core_1 v2 = v2 := (hinv.idc v2 hv2M.1).resolve_left hv2M.2
    rw [decide_eq_true_eq, ← hinv.sym_core, hid]
    exact hv2p

theorem id_checkSuccRule (G : Graph) (hw : G.WF) (s : State) (hinv : IdInv G s)
    (v : Int) : s.checkSuccRule G G v v = true := by
  unfold State.checkSuccRule
  rw [Bool.and_eq_true]
  constructor
  · rw [List.all_eq_true]
    intro e he
    by_cases hmap : getI s.core_1 e.u = NULL_VIndex
    · simp [hmap]
    · have heu : e.u ∈ rangeF G.vertex_count := by
        have hb := hw e (List.mem_filter.mp he).1
        rw [mem_rangeF]
        exact ⟨hb.1, hb.2.1⟩
      have hid : getI s.core_1 e.u = e.u := (hinv.idc e.u heu).resolve_left hmap
      simp only [if_neg hmap]
      rw [List.any_eq_true]
      exact ⟨e, he, by rw [hid]; simp⟩
  · rw [List.all_eq_true]
    intro v2 hv2
    rw [mem_sortedList, Finset.mem_inter, ← hinv.sym_M] at hv2
    obtain ⟨hv2M, hv2p⟩ := hv2
    rw [hinv.hM, Finset.mem_filter] at hv2M
    have hid : getI s.core_1 v2 = v2 := (hinv.idc v2 hv2M.1).resolve_left hv2M.2
    rw [decide_eq_true_eq, ← hinv.sym_core, hid]
    exact hv2p

theorem id_checkInRule (G : Graph) (s : State) (hinv : IdInv G s) (v : Int) :
    s.checkInRule G G v v = true := by
  unfold State.checkInRule
  rw [← hinv.sym_in]
  simp

theorem id_checkOutRule (G : Graph) (s : State) (hinv : IdInv G s) (v : Int) :
    s.checkOutRule G G v v = true := by
  unfold State.checkOutRule
  rw [← hinv.sym_out]
  simp

theorem id_checkNewRule (G : Graph) (s : State) (hinv : IdInv G s) (v : Int) :
    s.checkNewRule G G v v = true := by
  unfold State.checkNewRule
  rw [← hinv.sym_core, ← hinv.sym_in, ← hinv.sym_out]
  simp

theorem id_checkSynRules (G : Graph) (hw : G.WF) (s : State) (hinv : IdInv G s)
    (v : Int) : s.checkSynRules G G v v = true := by
  unfold State.checkSynRules
  rw [id_checkPredRule G hw s hinv v, id_checkSuccRule G hw s hinv v,
    id_checkInRule G s hinv v, id_checkOutRule G s hinv v,
    id_checkNewRule G s hinv v]
  rfl

theorem idInv_extend (G : Graph) (hw : G.WF) (s : State) (hinv : IdInv G s)
    (v : Int) (hv : v ∈ rangeF G.vertex_count)
    (hfree : getI s.core_1 v = NULL_VIndex) :
    IdInv G (s.addNewPair v v (G.pred v) (G.pred v) (G.succ v) (G.succ v)) ∧
    (s.addNewPair v v (G.pred v) (G.pred v) (G.succ v) (G.succ v)).M1.card
      = s.M1.card + 1 := by
  obtain ⟨hv0, hvlt⟩ := mem_rangeF.mp hv
  have hvlen : v < (s.core_1.length : Int) := by
    rw [hinv.len1]; exact hvlt
  have hget_self : getI (setI s.core_1 v v) v = v := getI_setI_self hv0 hvlen v
  have hget_ne : ∀ u : Int, u ≠ v → getI (setI s.core_1 v v) u = getI s.core_1 u :=
    fun u hu => getI_setI_ne s.core_1 v v hu
  have hvnotM : v ∉ s.M1 := by
    rw [hinv.hM, Finset.mem_filter]
    intro h
    exact h.2 hfree
  constructor
  · refine ⟨hinv.cnt, ?_, ?_, ?_, ?_, ?_, ?_, ?_, ?_, ?_⟩
    · -- len1
      simp only [State.addNewPair, length_setI, hinv.len1]
    · -- sym_core
      simp only [State.addNewPair]
      rw [← hinv.sym_core]
    · -- sym_in
      simp only [State.addNewPair]
      rw [← hinv.sym_core, ← hinv.sym_in]
    · -- sym_out
      simp only [State.addNewPair]
      rw [← hinv.sym_core, ← hinv.sym_out]
    · -- sym_M
      simp only [State.addNewPair]
      rw [← hinv.sym_M]
    · -- idc
      intro u hu
      simp only [State.addNewPair]
      by_cases huv : u = v
      · subst huv
        right
        exact hget_self
      · rw [hget_ne u huv]
        exact hinv.idc u hu
    · -- hM
      simp only [State.addNewPair]
      ext u
      rw [Finset.mem_insert, Finset.mem_filter]
      by_cases huv : u = v
      · subst huv
        simp only [true_or, true_iff]
        refine ⟨hv, ?_⟩
        rw [hget_self]
        simp only [NULL_VIndex]
        omega
      · rw [hget_ne u huv]
        have := hinv.hM
        constructor
        · rintro (h | h)
          · exact absurd h huv
          · rw [this, Finset.mem_filter] at h
            exact h
        · intro h
          right
          rw [this, Finset.mem_filter]
          exact h
    · -- din
      simp only [State.addNewPair]
      constructor
      · intro u hu
        rw [Finset.mem_erase, Finset.mem_union] at hu
        rcases hu.2 with h | h
        · exact hinv.din.1 h
        · exact pred_subset_rangeF hw v (Finset.mem_filter.mp h).1
      · intro u hu
        rw [Finset.mem_erase, Finset.mem_union] at hu
        obtain ⟨huv, h⟩ := hu
        rcases h with h | h
        · rw [hget_ne u huv]
          exact hinv.din.2 u h
        · exact (Finset.mem_filter.mp h).2
    · -- dout
      simp only [State.addNewPair]
      constructor
      · intro u hu
        rw [Finset.mem_erase, Finset.mem_union] at hu
        rcases hu.2 with h | h
        · exact hinv.dout.1 h
        · exact succ_subset_rangeF hw v (Finset.mem_filter.mp h).1
      · intro u hu
        rw [Finset.mem_erase, Finset.mem_union] at hu
        obtain ⟨huv, h⟩ := hu
        rcases h with h | h
        · rw [hget_ne u huv]
          exact hinv.dout.2 u h
        · exact (Finset.mem_filter.mp h).2
  · -- cardinality
    simp only [State.addNewPair]
    exact Finset.card_insert_of_not_mem hvnotM

theorem id_candidate_exists (G : Graph) (s : State) (hinv : IdInv G s)
    (hlt : s.M1.card < s.vertex_count) :
    ∃ v, (v, v) ∈ s.genCandiPairSet ∧ v ∈ rangeF G.vertex_count ∧
      getI s.core_1 v = NULL_VIndex := by
  unfold State.genCandiPairSet
  by_cases hc1 : s.out_1.Nonempty ∧ s.out_2.Nonempty
  · rw [if_pos hc1]
    obtain ⟨x, hx⟩ := hc1.2
    have hx1 : x ∈ s.out_1 := by rw [hinv.sym_out]; exact hx
    have hx0 : (0 : Int) ≤ x := (mem_rangeF.mp (hinv.dout.1 hx1)).1
    have hxl : x ∈ sortedList s.out_2 := mem_sortedList.mpr hx
    have hge : x ≤ listMaxFrom NULL_VIndex (sortedList s.out_2) :=
      listMaxFrom_le_of_mem hxl
    have hmem : listMaxFrom NULL_VIndex (sortedList s.out_2) ∈ s.out_1 := by
      rcases listMaxFrom_mem NULL_VIndex (sortedList s.out_2) with h | h
      · rw [h] at hge
        simp only [NULL_VIndex] at hge
        omega
      · rw [hinv.sym_out]
        exact mem_sortedList.mp h
    refine ⟨listMaxFrom NULL_VIndex (sortedList s.out_2), ?_, hinv.dout.1 hmem,
      hinv.dout.2 _ hmem⟩
    rw [List.mem_map]
    exact ⟨_, mem_sortedList.mpr hmem, rfl⟩
  · rw [if_neg hc1]
    by_cases hc2 : s.in_1.Nonempty ∧ s.in_2.Nonempty
    · rw [if_pos hc2]
      obtain ⟨x, hx⟩ := hc2.2
      have hx1 : x ∈ s.in_1 := by rw [hinv.sym_in]; exact hx
      have hx0 : (0 : Int) ≤ x := (mem_rangeF.mp (hinv.din.1 hx1)).1
      have hxl : x ∈ sortedList s.in_2 := mem_sortedList.mpr hx
      have hge : x ≤ listMaxFrom NULL_VIndex (sortedList s.in_2) :=
        listMaxFrom_le_of_mem hxl
      have hmem : listMaxFrom NULL_VIndex (sortedList s.in_2) ∈ s.in_1 := by
        rcases listMaxFrom_mem NULL_VIndex (sortedList s.in_2) with h | h
        · rw [h] at hge
          simp only [NULL_VIndex] at hge
          omega
        · rw [hinv.sym_in]
          exact mem_sortedList.mp h
      refine ⟨listMaxFrom NULL_VIndex (sortedList s.in_2), ?_, hinv.din.1 hmem,
        hinv.din.2 _ hmem⟩
      rw [List.mem_map]
      exact ⟨_, mem_sortedList.mpr hmem, rfl⟩
    · rw [if_neg hc2]
      have hex : ∃ j : Nat, j < s.vertex_count ∧
          getI s.core_2 (j : Int) = NULL_VIndex := by
        by_contra hall
        push_neg at hall
        have hsub : rangeF G.vertex_count ⊆ s.M1 := by
          intro u hu
          rw [hinv.hM, Finset.mem_filter]
          obtain ⟨hu0, hult⟩ := mem_rangeF.mp hu
          refine ⟨hu, ?_⟩
          have hcnt := hinv.cnt
          have := hall u.toNat (by omega)
          rw [show ((u.toNat : Nat) : Int) = u by omega, ← hinv.sym_core] at this
          exact this
        have := Finset.card_le_card hsub
        rw [card_rangeF] at this
        rw [hinv.cnt] at hlt
        omega
      have hne := scanDown_ne_null s.core_2 s.vertex_count hex
      rcases scanDown_spec s.core_2 s.vertex_count with h | ⟨hs0, hs1, hs2⟩
      · exact absurd h hne
      have hfree1 : getI s.core_1 (scanDown s.core_2 s.vertex_count) = NULL_VIndex := by
        rw [hinv.sym_core]
        exact hs2
      refine ⟨scanDown s.core_2 s.vertex_count, ?_, ?_, hfree1⟩
      · rw [List.mem_map]
        refine ⟨scanDown s.core_2 s.vertex_count, ?_, rfl⟩
        rw [List.mem_filter, decide_eq_true_eq]
        exact ⟨mem_rangeList.mpr ⟨hs0, hs1⟩, hfree1⟩
      · rw [mem_rangeF, ← hinv.cnt]
        exact ⟨hs0, hs1⟩

theorem id_solve (G : Graph) (hw : G.WF) :
    ∀ d s, IdInv G s → s.vertex_count - s.M1.card ≤ d →
      solve G G (d + 1) s = true := by
  intro d
  induction d with
  | zero =>
    intro s hinv hle
    have hcardle := idInv_card_le G s hinv
    have hcard : s.M1.card = s.vertex_count := by omega
    unfold solve
    rw [if_pos hcard]
  | succ n ih =>
    intro s hinv hle
    by_cases hcard : s.M1.card = s.vertex_count
    · unfold solve
      rw [if_pos hcard]
    · have hcardle := idInv_card_le G s hinv
      have hlt : s.M1.card < s.vertex_count := by omega
      obtain ⟨v, hvP, hvr, hvfree⟩ := id_candidate_exists G s hinv hlt
      obtain ⟨hinv2, hcard2⟩ := idInv_extend G hw s hinv v hvr hvfree
      have hrec : solve G G (n + 1)
          (s.addNewPair v v (G.pred v) (G.pred v) (G.succ v) (G.succ v)) = true := by
        apply ih _ hinv2
        have hcnt : (s.addNewPair v v (G.pred v) (G.pred v) (G.succ v)
            (G.succ v)).vertex_count = s.vertex_count := rfl
        rw [hcnt, hcard2]
        omega
      show solve G G (n + 1 + 1) s = true
      unfold solve
      rw [if_neg hcard]
      apply list_any_of_mem hvP
      have hsem := id_checkSemRules G s v
      have hsyn := id_checkSynRules G hw s hinv v
      simp only
      rw [if_pos (by rw [hsem, hsyn]; rfl)]
      exact hrec

/-- Claim C6 (confirmed): for every well-formed graph G (the spec's data-model
invariant: every edge endpoint in range), `isomorphism(G, G)` returns true. -/
theorem c6_self_matching (G : Graph) (hw : G.WF) : isomorphism G G = true := by
  unfold isomorphism
  rw [if_neg (by omega), if_neg (by omega)]
  apply id_solve G hw G.vertex_count (State.init G.vertex_count false)
    (idInv_init G false)
  have h1 : (State.init G.vertex_count false).M1.card = 0 := rfl
  have h2 : (State.init G.vertex_count false).vertex_count = G.vertex_count := rfl
  rw [h1, h2]
  omega

/-- Witness for claim C6: a concrete two-vertex graph with one labeled edge
matches itself. -/
theorem c6_witness :
    (⟨[2, 3], [⟨0, 1, 7⟩]⟩ : Graph).WF ∧
    isomorphism ⟨[2, 3], [⟨0, 1, 7⟩]⟩ ⟨[2, 3], [⟨0, 1, 7⟩]⟩ = true :=
  ⟨by decide, c6_self_matching _ (by decide)⟩

/-! ## Claim C7: the section-3 invariants are preserved by `addNewPair` -/

/-- The section-3 state invariants of the spec: the core vectors are indexed by
the respective graph's vertices, `M1`/`M2` are exactly the vertices with
non-NULL core entries, the mapping is a partial bijection with in-range
values, and each frontier set equals its set-theoretic definition (the
unmapped vertices adjacent, in the respective direction, to the mapped set of
its side) — in particular each frontier set is disjoint from the mapped set. -/
structure SInv (G1 G2 : Graph) (s : State) : Prop where
  cnt : s.vertex_count = G1.vertex_count
  len1 : s.core_1.length = G1.vertex_count
  len2 : s.core_2.length = G2.vertex_count
  hM1 : s.M1 = (rangeF G1.vertex_count).filter
    (fun v => getI s.core_1 v ≠ NULL_VIndex)
  hM2 : s.M2 = (rangeF G2.vertex_count).filter
    (fun v => getI s.core_2 v ≠ NULL_VIndex)
  bij : ∀ i ∈ rangeF G1.vertex_count, ∀ j ∈ rangeF G2.vertex_count,
    (getI s.core_1 i = j ↔ getI s.core_2 j = i)
  cr1 : ∀ i ∈ rangeF G1.vertex_count,
    getI s.core_1 i = NULL_VIndex ∨ getI s.core_1 i ∈ rangeF G2.vertex_count
  cr2 : ∀ j ∈ rangeF G2.vertex_count,
    getI s.core_2 j = NULL_VIndex ∨ getI s.core_2 j ∈ rangeF G1.vertex_count
  fin1 : s.in_1 = (rangeF G1.vertex_count).filter
    (fun u => u ∉ s.M1 ∧ ∃ v ∈ s.M1, u ∈ G1.pred v)
  fout1 : s.out_1 = (rangeF G1.vertex_count).filter
    (fun u => u ∉ s.M1 ∧ ∃ v ∈ s.M1, u ∈ G1.succ v)
  fin2 : s.in_2 = (rangeF G2.vertex_count).filter
    (fun u => u ∉ s.M2 ∧ ∃ v ∈ s.M2, u ∈ G2.pred v)
  fout2 : s.out_2 = (rangeF G2.vertex_count).filter
    (fun u => u ∉ s.M2 ∧ ∃ v ∈ s.M2, u ∈ G2.succ v)

/-- How one frontier set of `addNewPair` relates to its set-theoretic
definition: inserting the unmapped adjacents of the new vertex and erasing the
new vertex itself turns the old frontier into the frontier of the grown
mapped set. -/
theorem frontier_update (R : Finset Int) (A : Int → Finset Int)
    (M S : Finset Int) (n : Int) (core2 : List Int)
    (hS : S = R.filter (fun u => u ∉ M ∧ ∃ v ∈ M, u ∈ A v))
    (hAR : ∀ v : Int, A v ⊆ R)
    (hc : ∀ u ∈ R, (getI core2 u = NULL_VIndex ↔ u ∉ insert n M)) :
    (S ∪ (A n).filter (fun u => getI core2 u = NULL_VIndex)).erase n
      = R.filter (fun u => u ∉ insert n M ∧ ∃ v ∈ insert n M, u ∈ A v) := by
  ext u
  rw [Finset.mem_erase, Finset.mem_union, Finset.mem_filter, Finset.mem_filter,
    hS, Finset.mem_filter]
  constructor
  · rintro ⟨hun, h | h⟩
    · obtain ⟨huR, huM, v, hvM, hvA⟩ := h
      refine ⟨huR, ?_, v, Finset.mem_insert_of_mem hvM, hvA⟩
      rw [Finset.mem_insert]
      push_neg
      exact ⟨hun, huM⟩
    · obtain ⟨huA, hcore⟩ := h
      have huR : u ∈ R := hAR n huA
      exact ⟨huR, (hc u huR).mp hcore, n, Finset.mem_insert_self n M, huA⟩
  · rintro ⟨huR, huM, v, hvM, hvA⟩
    have hun : u ≠ n := by
      intro h
      subst h
      exact huM (Finset.mem_insert_self u M)
    refine ⟨hun, ?_⟩
    rcases Finset.mem_insert.mp hvM with rfl | hvM2
    · right
      exact ⟨hvA, (hc u huR).mpr huM⟩
    · left
      refine ⟨huR, ?_, v, hvM2, hvA⟩
      intro hMem
      exact huM (Finset.mem_insert_of_mem hMem)

/-- After writing `core[n] = x` with `x ≥ 0`, the mapped set grows by `n`. -/
theorem insert_filter_core (count : Nat) (core : List Int) (M : Finset Int)
    (n x : Int) (hn : n ∈ rangeF count) (hlen : core.length = count)
    (hx0 : 0 ≤ x)
    (hM : M = (rangeF count).filter (fun v => getI core v ≠ NULL_VIndex)) :
    insert n M = (rangeF count).filter
      (fun v => getI (setI core n x) v ≠ NULL_VIndex) := by
  obtain ⟨hn0, hnlt⟩ := mem_rangeF.mp hn
  ext u
  rw [Finset.mem_insert, hM, Finset.mem_filter, Finset.mem_filter]
  by_cases hun : u = n
  · subst hun
    simp only [true_or, true_iff]
    refine ⟨hn, ?_⟩
    rw [getI_setI_self hn0 (by omega) x]
    simp only [NULL_VIndex]
    omega
  · rw [getI_setI_ne core n x hun]
    constructor
    · rintro (h | h)
      · exact absurd h hun
      · exact h
    · intro h
      right
      exact h

/-- Claim C7 (confirmed): for every state satisfying the section-3 invariants
(`SInv`) over well-formed graphs, and every pair `(n, m)` of in-range unmapped
vertices, the state produced by
`addNewPair(n, m, pred1(n), pred2(m), succ1(n), succ2(m))` satisfies them
again: the core vectors stay a partial bijection, the mapped sets are exactly
the non-NULL core entries, and each frontier set equals its set-theoretic
definition (hence is disjoint from the mapped set of its side). -/
theorem c7_invariants_preserved (G1 G2 : Graph) (hw1 : G1.WF) (hw2 : G2.WF)
    (s : State) (hinv : SInv G1 G2 s) (n m : Int)
    (hn : n ∈ rangeF G1.vertex_count) (hm : m ∈ rangeF G2.vertex_count)
    (hfn : getI s.core_1 n = NULL_VIndex) (hfm : getI s.core_2 m = NULL_VIndex) :
    SInv G1 G2
      (s.addNewPair n m (G1.pred n) (G2.pred m) (G1.succ n) (G2.succ m)) := by
  obtain ⟨hn0, hnlt⟩ := mem_rangeF.mp hn
  obtain ⟨hm0, hmlt⟩ := mem_rangeF.mp hm
  have hlen1 : n < (s.core_1.length : Int) := by rw [hinv.len1]; exact hnlt
  have hlen2 : m < (s.core_2.length : Int) := by rw [hinv.len2]; exact hmlt
  have hself1 : getI (setI s.core_1 n m) n = m := getI_setI_self hn0 hlen1 m
  have hself2 : getI (setI s.core_2 m n) m = n := getI_setI_self hm0 hlen2 n
  have hc1 : ∀ u ∈ rangeF G1.vertex_count,
      (getI (setI s.core_1 n m) u = NULL_VIndex ↔ u ∉ insert n s.M1) := by
    intro u hu
    by_cases hun : u = n
    · subst hun
      rw [hself1]
      constructor
      · intro h
        exfalso
        simp only [NULL_VIndex] at h
        omega
      · intro h
        exact absurd (Finset.mem_insert_self u s.M1) h
    · rw [getI_setI_ne s.core_1 n m hun, Finset.mem_insert, hinv.hM1]
      constructor
      · intro h hcon
        rcases hcon with h1 | h1
        · exact hun h1
        · exact (Finset.mem_filter.mp h1).2 h
      · intro h
        by_contra hne
        exact h (Or.inr (Finset.mem_filter.mpr ⟨hu, hne⟩))
  have hc2 : ∀ u ∈ rangeF G2.vertex_count,
      (getI (setI s.core_2 m n) u = NULL_VIndex ↔ u ∉ insert m s.M2) := by
    intro u hu
    by_cases hum : u = m
    · subst hum
      rw [hself2]
      constructor
      · intro h
        exfalso
        simp only [NULL_VIndex] at h
        omega
      · intro h
        exact absurd (Finset.mem_insert_self u s.M2) h
    · rw [getI_setI_ne s.core_2 m n hum, Finset.mem_insert, hinv.hM2]
      constructor
      · intro h hcon
        rcases hcon with h1 | h1
        · exact hum h1
        · exact (Finset.mem_filter.mp h1).2 h
      · intro h
        by_contra hne
        exact h (Or.inr (Finset.mem_filter.mpr ⟨hu, hne⟩))
  refine ⟨hinv.cnt, ?_, ?_, ?_, ?_, ?_, ?_, ?_, ?_, ?_, ?_, ?_⟩
  · -- len1
    simp only [State.addNewPair, length_setI]
    exact hinv.len1
  · -- len2
    simp only [State.addNewPair, length_setI]
    exact hinv.len2
  · -- hM1
    simp only [State.addNewPair]
    exact insert_filter_core G1.vertex_count s.core_1 s.M1 n m hn hinv.len1 hm0
      hinv.hM1
  · -- hM2
    simp only [State.addNewPair]
    exact insert_filter_core G2.vertex_count s.core_2 s.M2 m n hm hinv.len2 hn0
      hinv.hM2
  · -- bij
    intro i hi j hj
    simp only [State.addNewPair]
    obtain ⟨hi0, hilt⟩ := mem_rangeF.mp hi
    obtain ⟨hj0, hjlt⟩ := mem_rangeF.mp hj
    by_cases hin : i = n <;> by_cases hjm : j = m
    · subst hin
      subst hjm
      rw [hself1, hself2]
      exact iff_of_true rfl rfl
    · subst hin
      rw [hself1, getI_setI_ne s.core_2 m i hjm]
      constructor
      · intro h
        exact absurd h.symm hjm
      · intro h
        have h2 := (hinv.bij i hn j hj).mpr h
        rw [hfn] at h2
        simp only [NULL_VIndex] at h2
        omega
    · subst hjm
      rw [getI_setI_ne s.core_1 n j hin, hself2]
      constructor
      · intro h
        have h2 := (hinv.bij i hi j hm).mp h
        rw [hfm] at h2
        simp only [NULL_VIndex] at h2
        omega
      · intro h
        exact absurd h.symm hin
    · rw [getI_setI_ne s.core_1 n m hin, getI_setI_ne s.core_2 m n hjm]
      exact hinv.bij i hi j hj
  · -- cr1
    intro i hi
    simp only [State.addNewPair]
    by_cases hin : i = n
    · subst hin
      rw [hself1]
      exact Or.inr hm
    · rw [getI_setI_ne s.core_1 n m hin]
      exact hinv.cr1 i hi
  · -- cr2
    intro j hj
    simp only [State.addNewPair]
    by_cases hjm : j = m
    · subst hjm
      rw [hself2]
      exact Or.inr hn
    · rw [getI_setI_ne s.core_2 m n hjm]
      exact hinv.cr2 j hj
  · -- fin1
    simp only [State.addNewPair]
    exact frontier_update (rangeF G1.vertex_count) G1.pred s.M1 s.in_1 n
      (setI s.core_1 n m) hinv.fin1 (fun v => pred_subset_rangeF hw1 v) hc1
  · -- fout1
    simp only [State.addNewPair]
    exact frontier_update (rangeF G1.vertex_count) G1.succ s.M1 s.out_1 n
      (setI s.core_1 n m) hinv.fout1 (fun v => succ_subset_rangeF hw1 v) hc1
  · -- fin2
    simp only [State.addNewPair]
    exact frontier_update (rangeF G2.vertex_count) G2.pred s.M2 s.in_2 m
      (setI s.core_2 m n) hinv.fin2 (fun v => pred_subset_rangeF hw2 v) hc2
  · -- fout2
    simp only [State.addNewPair]
    exact frontier_update (rangeF G2.vertex_count) G2.succ s.M2 s.out_2 m
      (setI s.core_2 m n) hinv.fout2 (fun v => succ_subset_rangeF hw2 v) hc2

/-- The empty state satisfies the section-3 invariants when the state is sized
to both graphs (exact mode, equal vertex counts). -/
theorem sInv_init (G1 G2 : Graph) (b : Bool)
    (h : G1.vertex_count = G2.vertex_count) :
    SInv G1 G2 (State.init G1.vertex_count b) := by
  refine ⟨rfl, ?_, ?_, ?_, ?_, ?_, ?_, ?_, ?_, ?_, ?_, ?_⟩
  · exact List.length_replicate _ _
  · show (List.replicate G1.vertex_count NULL_VIndex).length = G2.vertex_count
    rw [List.length_replicate, h]
  · ext v
    simp [State.init, getI_replicate]
  · ext v
    simp [State.init, getI_replicate]
  · intro i hi j hj
    obtain ⟨hi0, _⟩ := mem_rangeF.mp hi
    obtain ⟨hj0, _⟩ := mem_rangeF.mp hj
    show getI (List.replicate G1.vertex_count NULL_VIndex) i = j ↔
      getI (List.replicate G1.vertex_count NULL_VIndex) j = i
    rw [getI_replicate, getI_replicate]
    constructor
    · intro hh
      exfalso
      simp only [NULL_VIndex] at hh
      omega
    · intro hh
      exfalso
      simp only [NULL_VIndex] at hh
      omega
  · intro i _
    exact Or.inl getI_replicate
  · intro j _
    exact Or.inl getI_replicate
  · ext v
    simp [State.init]
  · ext v
    simp [State.init]
  · ext v
    simp [State.init]
  · ext v
    simp [State.init]

/-- Witness for claim C7 at a concrete instance: the single-vertex graph, the
empty state, and the pair (0, 0). -/
theorem c7_witness :
    ((⟨[0], []⟩ : Graph).WF ∧
      SInv ⟨[0], []⟩ ⟨[0], []⟩ (State.init 1 false) ∧
      (0 : Int) ∈ rangeF (⟨[0], []⟩ : Graph).vertex_count ∧
      getI (State.init 1 false).core_1 0 = NULL_VIndex ∧
      getI (State.init 1 false).core_2 0 = NULL_VIndex) ∧
    SInv ⟨[0], []⟩ ⟨[0], []⟩
      ((State.init 1 false).addNewPair 0 0 ((⟨[0], []⟩ : Graph).pred 0)
        ((⟨[0], []⟩ : Graph).pred 0) ((⟨[0], []⟩ : Graph).succ 0)
        ((⟨[0], []⟩ : Graph).succ 0)) :=
  ⟨⟨by decide, sInv_init ⟨[0], []⟩ ⟨[0], []⟩ false rfl, by decide, by decide,
      by decide⟩,
    c7_invariants_preserved ⟨[0], []⟩ ⟨[0], []⟩ (by decide) (by decide)
      (State.init 1 false) (sInv_init ⟨[0], []⟩ ⟨[0], []⟩ false rfl)
      0 0 (by decide) (by decide) (by decide) (by decide)⟩

/-! ## Claims C8 and C10: the reachable-state invariant

`RInv` is what reachable states satisfy in both modes; unlike `SInv` it does
not assume `core_2` covers G2 (the source sizes it to the query in subgraph
mode too, claim C4).  It delivers the freshness of candidate pairs (C10) and
the growth of `M1` with fuel adequacy (C8). -/

structure RInv (G1 G2 : Graph) (s : State) : Prop where
  cnt : s.vertex_count = G1.vertex_count
  len1 : s.core_1.length = G1.vertex_count
  len2 : s.core_2.length = G1.vertex_count
  hM1 : s.M1 = (rangeF G1.vertex_count).filter
    (fun v => getI s.core_1 v ≠ NULL_VIndex)
  d1i : s.in_1 ⊆ rangeF G1.vertex_count ∧
    ∀ u ∈ s.in_1, getI s.core_1 u = NULL_VIndex
  d1o : s.out_1 ⊆ rangeF G1.vertex_count ∧
    ∀ u ∈ s.out_1, getI s.core_1 u = NULL_VIndex
  hM2rec : ∀ j ∈ s.M2, 0 ≤ j → j < (s.core_2.length : Int) →
    getI s.core_2 j ≠ NULL_VIndex
  d2i : s.in_2 ⊆ rangeF G2.vertex_count ∧ ∀ u ∈ s.in_2, u ∉ s.M2
  d2o : s.out_2 ⊆ rangeF G2.vertex_count ∧ ∀ u ∈ s.out_2, u ∉ s.M2
  cardRec : ((rangeF G1.vertex_count).filter
    (fun j => getI s.core_2 j ≠ NULL_VIndex)).card ≤ s.M1.card

theorem rInv_init (G1 G2 : Graph) (b : Bool) :
    RInv G1 G2 (State.init G1.vertex_count b) := by
  refine ⟨rfl, List.length_replicate _ _, List.length_replicate _ _, ?_, ?_, ?_,
    ?_, ?_, ?_, ?_⟩
  · ext v
    simp [State.init, getI_replicate]
  · exact ⟨by simp [State.init], by simp [State.init]⟩
  · exact ⟨by simp [State.init], by simp [State.init]⟩
  · intro j hj
    simp only [State.init, Finset.not_mem_empty] at hj
  · exact ⟨by simp [State.init], by simp [State.init]⟩
  · exact ⟨by simp [State.init], by simp [State.init]⟩
  · have h : ((rangeF G1.vertex_count).filter
        (fun j => getI (State.init G1.vertex_count b).core_2 j ≠ NULL_VIndex)) = ∅ := by
      ext v
      simp [State.init, getI_replicate]
    rw [h]
    simp [State.init]

theorem rInv_card_le (G1 G2 : Graph) (s : State) (hinv : RInv G1 G2 s) :
    s.M1.card ≤ s.vertex_count := by
  rw [hinv.hM1, hinv.cnt]
  calc ((rangeF G1.vertex_count).filter _).card
      ≤ (rangeF G1.vertex_count).card := Finset.card_filter_le _ _
    _ = G1.vertex_count := card_rangeF _

/-- Every pair emitted by `genCandiPairSet` from a state satisfying `RInv` is
fresh: `n` is an in-range unmapped G1 vertex and `m` is not in `M2`. -/
theorem rInv_fresh (G1 G2 : Graph) (s : State) (hinv : RInv G1 G2 s)
    {n m : Int} (hp : (n, m) ∈ s.genCandiPairSet) :
    n ∈ rangeF G1.vertex_count ∧ getI s.core_1 n = NULL_VIndex ∧
    n ∉ s.M1 ∧ 0 ≤ m ∧ m ∉ s.M2 := by
  have hnotM1 : ∀ u, getI s.core_1 u = NULL_VIndex → u ∉ s.M1 := by
    intro u hu
    rw [hinv.hM1, Finset.mem_filter]
    intro h
    exact h.2 hu
  unfold State.genCandiPairSet at hp
  by_cases hc1 : s.out_1.Nonempty ∧ s.out_2.Nonempty
  · rw [if_pos hc1, List.mem_map] at hp
    obtain ⟨v1, hv1, heq⟩ := hp
    injection heq with heq1 heq2
    subst heq1
    subst heq2
    have hv1m : v1 ∈ s.out_1 := mem_sortedList.mp hv1
    obtain ⟨x, hx⟩ := hc1.2
    have hx0 : (0 : Int) ≤ x := (mem_rangeF.mp (hinv.d2o.1 hx)).1
    have hge : x ≤ listMaxFrom NULL_VIndex (sortedList s.out_2) :=
      listMaxFrom_le_of_mem (mem_sortedList.mpr hx)
    have hmem : listMaxFrom NULL_VIndex (sortedList s.out_2) ∈ s.out_2 := by
      rcases listMaxFrom_mem NULL_VIndex (sortedList s.out_2) with h | h
      · rw [h] at hge
        simp only [NULL_VIndex] at hge
        omega
      · exact mem_sortedList.mp h
    exact ⟨hinv.d1o.1 hv1m, hinv.d1o.2 v1 hv1m,
      hnotM1 v1 (hinv.d1o.2 v1 hv1m),
      (mem_rangeF.mp (hinv.d2o.1 hmem)).1, hinv.d2o.2 _ hmem⟩
  · rw [if_neg hc1] at hp
    by_cases hc2 : s.in_1.Nonempty ∧ s.in_2.Nonempty
    · rw [if_pos hc2, List.mem_map] at hp
      obtain ⟨v1, hv1, heq⟩ := hp
      injection heq with heq1 heq2
      subst heq1
      subst heq2
      have hv1m : v1 ∈ s.in_1 := mem_sortedList.mp hv1
      obtain ⟨x, hx⟩ := hc2.2
      have hx0 : (0 : Int) ≤ x := (mem_rangeF.mp (hinv.d2i.1 hx)).1
      have hge : x ≤ listMaxFrom NULL_VIndex (sortedList s.in_2) :=
        listMaxFrom_le_of_mem (mem_sortedList.mpr hx)
      have hmem : listMaxFrom NULL_VIndex (sortedList s.in_2) ∈ s.in_2 := by
        rcases listMaxFrom_mem NULL_VIndex (sortedList s.in_2) with h | h
        · rw [h] at hge
          simp only [NULL_VIndex] at hge
          omega
        · exact mem_sortedList.mp h
      exact ⟨hinv.d1i.1 hv1m, hinv.d1i.2 v1 hv1m,
        hnotM1 v1 (hinv.d1i.2 v1 hv1m),
        (mem_rangeF.mp (hinv.d2i.1 hmem)).1, hinv.d2i.2 _ hmem⟩
    · rw [if_neg hc2, List.mem_map] at hp
      obtain ⟨v1, hv1, heq⟩ := hp
      injection heq with heq1 heq2
      subst heq1
      subst heq2
      rw [List.mem_filter, decide_eq_true_eq] at hv1
      obtain ⟨hvr, hvc⟩ := hv1
      have hnr : v1 ∈ rangeF G1.vertex_count := by
        rw [mem_rangeF]
        have h := mem_rangeList.mp hvr
        have hcnt := hinv.cnt
        omega
      have hnM1 : v1 ∉ s.M1 := hnotM1 v1 hvc
      have hM1sub : s.M1 ⊆ rangeF G1.vertex_count := by
        rw [hinv.hM1]
        exact Finset.filter_subset _ _
      have hcardlt : s.M1.card < G1.vertex_count := by
        have hss : s.M1 ⊂ rangeF G1.vertex_count :=
          (Finset.ssubset_iff_of_subset hM1sub).mpr ⟨v1, hnr, hnM1⟩
        have hcc := Finset.card_lt_card hss
        rw [card_rangeF] at hcc
        exact hcc
      have hex : ∃ j : Nat, j < s.vertex_count ∧
          getI s.core_2 (j : Int) = NULL_VIndex := by
        by_contra hall
        push_neg at hall
        have hsub : rangeF G1.vertex_count ⊆
            (rangeF G1.vertex_count).filter
              (fun j => getI s.core_2 j ≠ NULL_VIndex) := by
          intro u hu
          rw [Finset.mem_filter]
          obtain ⟨hu0, hult⟩ := mem_rangeF.mp hu
          have hcnt := hinv.cnt
          have h := hall u.toNat (by omega)
          rw [show ((u.toNat : Nat) : Int) = u by omega] at h
          exact ⟨hu, h⟩
        have h1 := Finset.card_le_card hsub
        have h2 := hinv.cardRec
        rw [card_rangeF] at h1
        omega
      have hne := scanDown_ne_null s.core_2 s.vertex_count hex
      rcases scanDown_spec s.core_2 s.vertex_count with h | ⟨hs0, hs1, hs2⟩
      · exact absurd h hne
      refine ⟨hnr, hvc, hnM1, hs0, ?_⟩
      intro hmem
      refine hinv.hM2rec _ hmem hs0 ?_ hs2
      have hcnt := hinv.cnt
      have hlen := hinv.len2
      omega

/-- `RInv` is preserved by extension with any emitted pair that passes the
pred and succ rules (the second halves of those rules are what keep the
side-2 frontiers disjoint from `M2`); the mapped set `M1` grows by exactly
one. -/
theorem rInv_extend (G1 G2 : Graph) (hw1 : G1.WF) (hw2 : G2.WF) (s : State)
    (hinv : RInv G1 G2 s) {n m : Int} (hp : (n, m) ∈ s.genCandiPairSet)
    (hpred : s.checkPredRule G1 G2 n m = true)
    (hsucc : s.checkSuccRule G1 G2 n m = true) :
    RInv G1 G2
      (s.addNewPair n m (G1.pred n) (G2.pred m) (G1.succ n) (G2.succ m)) ∧
    (s.addNewPair n m (G1.pred n) (G2.pred m) (G1.succ n)
      (G2.succ m)).M1.card = s.M1.card + 1 := by
  obtain ⟨hnr, hfn, hnM1, hm0, hmM2⟩ := rInv_fresh G1 G2 s hinv hp
  obtain ⟨hn0, hnlt⟩ := mem_rangeF.mp hnr
  have hpred2 : ∀ v2 ∈ s.M2 ∩ G2.pred m, getI s.core_2 v2 ∈ G1.pred n := by
    intro v2 hv2
    have hb := hpred
    rw [State.checkPredRule, Bool.and_eq_true] at hb
    have h := hb.2
    rw [List.all_eq_true] at h
    have h2 := h v2 (mem_sortedList.mpr hv2)
    rwa [decide_eq_true_eq] at h2
  have hsucc2 : ∀ v2 ∈ s.M2 ∩ G2.succ m, getI s.core_2 v2 ∈ G1.succ n := by
    intro v2 hv2
    have hb := hsucc
    rw [State.checkSuccRule, Bool.and_eq_true] at hb
    have h := hb.2
    rw [List.all_eq_true] at h
    have h2 := h v2 (mem_sortedList.mpr hv2)
    rwa [decide_eq_true_eq] at h2
  constructor
  · refine ⟨hinv.cnt, ?_, ?_, ?_, ?_, ?_, ?_, ?_, ?_, ?_⟩
    · -- len1
      simp only [State.addNewPair, length_setI]
      exact hinv.len1
    · -- len2
      simp only [State.addNewPair, length_setI]
      exact hinv.len2
    · -- hM1
      simp only [State.addNewPair]
      exact insert_filter_core G1.vertex_count s.core_1 s.M1 n m hnr hinv.len1
        hm0 hinv.hM1
    · -- d1i
      simp only [State.addNewPair]
      constructor
      · intro u hu
        rw [Finset.mem_erase, Finset.mem_union] at hu
        rcases hu.2 with h | h
        · exact hinv.d1i.1 h
        · exact pred_subset_rangeF hw1 n (Finset.mem_filter.mp h).1
      · intro u hu
        rw [Finset.mem_erase, Finset.mem_union] at hu
        obtain ⟨hun, h⟩ := hu
        rcases h with h | h
        · rw [getI_setI_ne s.core_1 n m hun]
          exact hinv.d1i.2 u h
        · have h2 := (Finset.mem_filter.mp h).2
          rwa [getI_setI_ne s.core_1 n m hun] at h2 ⊢
    · -- d1o
      simp only [State.addNewPair]
      constructor
      · intro u hu
        rw [Finset.mem_erase, Finset.mem_union] at hu
        rcases hu.2 with h | h
        · exact hinv.d1o.1 h
        · exact succ_subset_rangeF hw1 n (Finset.mem_filter.mp h).1
      · intro u hu
        rw [Finset.mem_erase, Finset.mem_union] at hu
        obtain ⟨hun, h⟩ := hu
        rcases h with h | h
        · rw [getI_setI_ne s.core_1 n m hun]
          exact hinv.d1o.2 u h
        · have h2 := (Finset.mem_filter.mp h).2
          rwa [getI_setI_ne s.core_1 n m hun] at h2 ⊢
    · -- hM2rec
      simp only [State.addNewPair]
      intro j hj hj0 hjlen
      rw [length_setI] at hjlen
      rcases Finset.mem_insert.mp hj with rfl | hjM
      · rw [getI_setI_self hj0 hjlen n]
        simp only [NULL_VIndex]
        omega
      · have hjm : j ≠ m := by
          intro h
          subst h
          exact hmM2 hjM
        rw [getI_setI_ne s.core_2 m n hjm]
        exact hinv.hM2rec j hjM hj0 hjlen
    · -- d2i
      simp only [State.addNewPair]
      constructor
      · intro u hu
        rw [Finset.mem_erase, Finset.mem_union] at hu
        rcases hu.2 with h | h
        · exact hinv.d2i.1 h
        · exact pred_subset_rangeF hw2 m (Finset.mem_filter.mp h).1
      · intro u hu
        rw [Finset.mem_erase, Finset.mem_union] at hu
        obtain ⟨hum, h⟩ := hu
        intro huM2
        rcases Finset.mem_insert.mp huM2 with rfl | huM2'
        · exact hum rfl
        rcases h with h | h
        · exact hinv.d2i.2 u h huM2'
        · obtain ⟨hupred, hucore⟩ := Finset.mem_filter.mp h
          rw [getI_setI_ne s.core_2 m n hum] at hucore
          have h2 := hpred2 u (Finset.mem_inter.mpr ⟨huM2', hupred⟩)
          rw [hucore] at h2
          have h3 := pred_subset_rangeF hw1 n h2
          have h4 := (mem_rangeF.mp h3).1
          simp only [NULL_VIndex] at h4
          omega
    · -- d2o
      simp only [State.addNewPair]
      constructor
      · intro u hu
        rw [Finset.mem_erase, Finset.mem_union] at hu
        rcases hu.2 with h | h
        · exact hinv.d2o.1 h
        · exact succ_subset_rangeF hw2 m (Finset.mem_filter.mp h).1
      · intro u hu
        rw [Finset.mem_erase, Finset.mem_union] at hu
        obtain ⟨hum, h⟩ := hu
        intro huM2
        rcases Finset.mem_insert.mp huM2 with rfl | huM2'
        · exact hum rfl
        rcases h with h | h
        · exact hinv.d2o.2 u h huM2'
        · obtain ⟨husucc, hucore⟩ := Finset.mem_filter.mp h
          rw [getI_setI_ne s.core_2 m n hum] at hucore
          have h2 := hsucc2 u (Finset.mem_inter.mpr ⟨huM2', husucc⟩)
          rw [hucore] at h2
          have h3 := succ_subset_rangeF hw1 n h2
          have h4 := (mem_rangeF.mp h3).1
          simp only [NULL_VIndex] at h4
          omega
    · -- cardRec
      simp only [State.addNewPair]
      have hsub : (rangeF G1.vertex_count).filter
          (fun j => getI (setI s.core_2 m n) j ≠ NULL_VIndex) ⊆
          insert m ((rangeF G1.vertex_count).filter
            (fun j => getI s.core_2 j ≠ NULL_VIndex)) := by
        intro j hj
        obtain ⟨hjr, hjc⟩ := Finset.mem_filter.mp hj
        by_cases hjm : j = m
        · subst hjm
          exact Finset.mem_insert_self j _
        · rw [getI_setI_ne s.core_2 m n hjm] at hjc
          exact Finset.mem_insert_of_mem (Finset.mem_filter.mpr ⟨hjr, hjc⟩)
      have h1 := Finset.card_le_card hsub
      have h2 := Finset.card_insert_le m ((rangeF G1.vertex_count).filter
        (fun j => getI s.core_2 j ≠ NULL_VIndex))
      have h3 := hinv.cardRec
      have h4 : (insert n s.M1).card = s.M1.card + 1 :=
        Finset.card_insert_of_not_mem hnM1
      rw [h4]
      omega
  · simp only [State.addNewPair]
    exact Finset.card_insert_of_not_mem hnM1

/-- States reachable from the empty state by accepted extensions: the initial
state of either entry point, and any accepted emitted candidate's extension of
a reachable state. -/
inductive Reachable (G1 G2 : Graph) : State → Prop
  | init (b : Bool) : Reachable G1 G2 (State.init G1.vertex_count b)
  | step {s : State} {n m : Int} :
      Reachable G1 G2 s →
      (n, m) ∈ s.genCandiPairSet →
      s.checkSemRules G1 G2 n m = true →
      s.checkSynRules G1 G2 n m = true →
      Reachable G1 G2
        (s.addNewPair n m (G1.pred n) (G2.pred m) (G1.succ n) (G2.succ m))

theorem reachable_rInv (G1 G2 : Graph) (hw1 : G1.WF) (hw2 : G2.WF) {s : State}
    (h : Reachable G1 G2 s) : RInv G1 G2 s := by
  induction h with
  | init b => exact rInv_init G1 G2 b
  | step hr hp hsem hsyn ih =>
    have hs := hsyn
    rw [State.checkSynRules, Bool.and_eq_true, Bool.and_eq_true,
      Bool.and_eq_true, Bool.and_eq_true] at hs
    exact (rInv_extend G1 G2 hw1 hw2 _ ih hp hs.1.1.1.1 hs.1.1.1.2).1

/-- Claim C10 (confirmed): for well-formed graphs, every pair `(n, m)` emitted
by `genCandiPairSet` from a state reachable from the empty state by accepted
extensions has `core_1[n] = UNMAPPED` (so `n ∉ M1`) and `m ∉ M2` — the
implicit precondition of `addNewPair` holds on every extension the search
performs. -/
theorem c10_candidates_fresh (G1 G2 : Graph) (hw1 : G1.WF) (hw2 : G2.WF)
    (s : State) (h : Reachable G1 G2 s) (n m : Int)
    (hp : (n, m) ∈ s.genCandiPairSet) :
    getI s.core_1 n = NULL_VIndex ∧ n ∉ s.M1 ∧ m ∉ s.M2 := by
  obtain ⟨_, hfn, hnM, _, hmM⟩ :=
    rInv_fresh G1 G2 s (reachable_rInv G1 G2 hw1 hw2 h) hp
  exact ⟨hfn, hnM, hmM⟩

/-- Witness for claim C10: the initial state of `subisomorphism` on the
one-vertex graph emits (0, 0), and both endpoints are fresh. -/
theorem c10_witness :
    ((⟨[0], []⟩ : Graph).WF ∧
      ((0 : Int), (0 : Int)) ∈ (State.init 1 true).genCandiPairSet) ∧
    (getI (State.init 1 true).core_1 0 = NULL_VIndex ∧
      (0 : Int) ∉ (State.init 1 true).M1 ∧
      (0 : Int) ∉ (State.init 1 true).M2) :=
  ⟨⟨by decide, by decide⟩,
    c10_candidates_fresh ⟨[0], []⟩ ⟨[0], []⟩ (by decide) (by decide)
      (State.init 1 true) (Reachable.init true) 0 0 (by decide)⟩

/-- With enough fuel the result of `solve` does not depend on the fuel: from a
state satisfying `RInv`, `vertex_count + 1 - |M1|` levels always suffice,
because every recursive call grows `|M1|` by exactly one. -/
theorem solve_fuel_congr (G1 G2 : Graph) (hw1 : G1.WF) (hw2 : G2.WF) :
    ∀ (k : Nat) (s : State), RInv G1 G2 s → s.vertex_count - s.M1.card ≤ k →
    ∀ f g : Nat, s.vertex_count + 1 - s.M1.card ≤ f →
      s.vertex_count + 1 - s.M1.card ≤ g →
      solve G1 G2 f s = solve G1 G2 g s := by
  intro k
  induction k with
  | zero =>
    intro s hinv hle f g hf hg
    have hcardle := rInv_card_le G1 G2 s hinv
    have hEq : s.M1.card = s.vertex_count := by omega
    obtain ⟨f2, rfl⟩ : ∃ f2, f = f2 + 1 := ⟨f - 1, by omega⟩
    obtain ⟨g2, rfl⟩ : ∃ g2, g = g2 + 1 := ⟨g - 1, by omega⟩
    unfold solve
    rw [if_pos hEq, if_pos hEq]
  | succ k ih =>
    intro s hinv hle f g hf hg
    by_cases hEq : s.M1.card = s.vertex_count
    · obtain ⟨f2, rfl⟩ : ∃ f2, f = f2 + 1 := ⟨f - 1, by omega⟩
      obtain ⟨g2, rfl⟩ : ∃ g2, g = g2 + 1 := ⟨g - 1, by omega⟩
      unfold solve
      rw [if_pos hEq, if_pos hEq]
    · have hcardle := rInv_card_le G1 G2 s hinv
      have hlt : s.M1.card < s.vertex_count := by omega
      obtain ⟨f2, rfl⟩ : ∃ f2, f = f2 + 1 := ⟨f - 1, by omega⟩
      obtain ⟨g2, rfl⟩ : ∃ g2, g = g2 + 1 := ⟨g - 1, by omega⟩
      unfold solve
      rw [if_neg hEq, if_neg hEq]
      apply list_any_congr
      intro p hp
      by_cases hacc : (s.checkSemRules G1 G2 p.1 p.2 &&
          s.checkSynRules G1 G2 p.1 p.2) = true
      · rw [if_pos hacc, if_pos hacc]
        have hs := hacc
        rw [Bool.and_eq_true] at hs
        have hsyn := hs.2
        rw [State.checkSynRules, Bool.and_eq_true, Bool.and_eq_true,
          Bool.and_eq_true, Bool.and_eq_true] at hsyn
        have hp2 : (p.1, p.2) ∈ s.genCandiPairSet := hp
        obtain ⟨hinv2, hcard2⟩ :=
          rInv_extend G1 G2 hw1 hw2 s hinv hp2 hsyn.1.1.1.1 hsyn.1.1.1.2
        have hvc : (s.addNewPair p.1 p.2 (G1.pred p.1) (G2.pred p.2)
            (G1.succ p.1) (G2.succ p.2)).vertex_count = s.vertex_count := rfl
        refine ih _ hinv2 ?_ f2 g2 ?_ ?_
        · rw [hvc, hcard2]
          omega
        · rw [hvc, hcard2]
          omega
        · rw [hvc, hcard2]
          omega
      · rw [if_neg hacc, if_neg hacc]

/-- Claim C8 (confirmed): for well-formed graphs and any state satisfying the
reachable-state invariant, every emitted candidate's extension grows `|M1|` by
exactly one, `|M1|` is bounded by `|V(G1)|`, and `solve` is independent of the
fuel once it is at least `vertex_count + 1 - |M1|` — in particular the
`|V(G1)| + 1` fuel the entry points pass always suffices, so the search
terminates on every input. -/
theorem c8_termination (G1 G2 : Graph) (hw1 : G1.WF) (hw2 : G2.WF)
    (s : State) (hinv : RInv G1 G2 s) :
    (∀ n m : Int, (n, m) ∈ s.genCandiPairSet →
      (s.addNewPair n m (G1.pred n) (G2.pred m) (G1.succ n)
        (G2.succ m)).M1.card = s.M1.card + 1) ∧
    s.M1.card ≤ G1.vertex_count ∧
    (∀ f g : Nat, s.vertex_count + 1 - s.M1.card ≤ f →
      s.vertex_count + 1 - s.M1.card ≤ g →
      solve G1 G2 f s = solve G1 G2 g s) := by
  refine ⟨?_, ?_, ?_⟩
  · intro n m hp
    obtain ⟨_, _, hnM1, _, _⟩ := rInv_fresh G1 G2 s hinv hp
    simp only [State.addNewPair]
    exact Finset.card_insert_of_not_mem hnM1
  · have h := rInv_card_le G1 G2 s hinv
    rw [hinv.cnt] at h
    exact h
  · intro f g hf hg
    exact solve_fuel_congr G1 G2 hw1 hw2 (s.vertex_count - s.M1.card) s hinv
      (le_refl _) f g hf hg

/-- Witness for claim C8 at the one-vertex graph and its initial state. -/
theorem c8_witness :
    ((⟨[0], []⟩ : Graph).WF ∧
      RInv ⟨[0], []⟩ ⟨[0], []⟩ (State.init 1 false)) ∧
    ((∀ n m : Int, (n, m) ∈ (State.init 1 false).genCandiPairSet →
        ((State.init 1 false).addNewPair n m ((⟨[0], []⟩ : Graph).pred n)
          ((⟨[0], []⟩ : Graph).pred m) ((⟨[0], []⟩ : Graph).succ n)
          ((⟨[0], []⟩ : Graph).succ m)).M1.card
          = (State.init 1 false).M1.card + 1) ∧
      (State.init 1 false).M1.card ≤ (⟨[0], []⟩ : Graph).vertex_count ∧
      (∀ f g : Nat,
        (State.init 1 false).vertex_count + 1 - (State.init 1 false).M1.card ≤ f →
        (State.init 1 false).vertex_count + 1 - (State.init 1 false).M1.card ≤ g →
        solve ⟨[0], []⟩ ⟨[0], []⟩ f (State.init 1 false)
          = solve ⟨[0], []⟩ ⟨[0], []⟩ g (State.init 1 false))) :=
  ⟨⟨by decide, rInv_init ⟨[0], []⟩ ⟨[0], []⟩ false⟩,
    c8_termination ⟨[0], []⟩ ⟨[0], []⟩ (by decide) (by decide)
      (State.init 1 false) (rInv_init ⟨[0], []⟩ ⟨[0], []⟩ false)⟩

/-! ## Claim C9: frame property of the search

`solve` receives its `State` by reference in the source.  The state-passing
translation below makes every potential write visible: each member function
`solve` invokes on the caller's state is translated to return the state it
leaves behind (their bodies contain no writes to `this`, which the pair
return type records), the one mutating call (`addNewPair`) is applied only to
the clone `State new_state = state`, and the recursive call's final state is
discarded with the clone.  The graphs are immutable values throughout — no
operation in the search writes to a `Graph`. -/

/-- `state.checkSemRules(...)` as a state transformer: no writes. -/
def checkSemRulesS (s : State) (G1 G2 : Graph) (n m : Int) : Bool × State :=
  (s.checkSemRules G1 G2 n m, s)

/-- `state.checkSynRules(...)` as a state transformer: no writes. -/
def checkSynRulesS (s : State) (G1 G2 : Graph) (n m : Int) : Bool × State :=
  (s.checkSynRules G1 G2 n m, s)

/-- `state.genCandiPairSet()` as a state transformer: no writes. -/
def genCandiPairSetS (s : State) : List (Int × Int) × State :=
  (s.genCandiPairSet, s)

/-- The candidate loop of `solve`, state-passing.  The current state is
threaded through the check calls; each accepted candidate extends a fresh
clone, and a failed branch's clone is discarded, leaving the threaded state
to continue the loop. -/
def solveSLoop (rec : State → Bool × State) (G1 G2 : Graph) :
    List (Int × Int) → State → Bool × State
  | [], st => (false, st)
  | p :: ps, st =>
    let r1 := checkSemRulesS st G1 G2 p.1 p.2
    let r2 := checkSynRulesS r1.2 G1 G2 p.1 p.2
    if r1.1 && r2.1 then
      let clone := r2.2
      let ns := clone.addNewPair p.1 p.2 (G1.pred p.1) (G2.pred p.2)
        (G1.succ p.1) (G2.succ p.2)
      let rr := rec ns
      if rr.1 then (true, r2.2) else solveSLoop rec G1 G2 ps r2.2
    else solveSLoop rec G1 G2 ps r2.2

/-- State-passing `solve`: returns the result together with the state object
the caller passed by reference, as it stands when the call returns. -/
def solveS (G1 G2 : Graph) : Nat → State → Bool × State
  | 0, st => (false, st)
  | fuel + 1, st =>
    if st.M1.card = st.vertex_count then (true, st)
    else
      let r := genCandiPairSetS st
      solveSLoop (solveS G1 G2 fuel) G1 G2 r.1 r.2

theorem solveSLoop_frame (rec : State → Bool × State) (G1 G2 : Graph)
    (l : List (Int × Int)) (st : State) :
    (solveSLoop rec G1 G2 l st).2 = st := by
  induction l with
  | nil => rfl
  | cons p ps ih =>
    simp only [solveSLoop, checkSemRulesS, checkSynRulesS]
    split
    · split
      · rfl
      · exact ih
    · exact ih

theorem solveS_frame (G1 G2 : Graph) (fuel : Nat) (st : State) :
    (solveS G1 G2 fuel st).2 = st := by
  cases fuel with
  | zero => rfl
  | succ f =>
    simp only [solveS, genCandiPairSetS]
    split
    · rfl
    · exact solveSLoop_frame _ G1 G2 _ st

theorem solveSLoop_agree (rec : State → Bool × State) (recB : State → Bool)
    (hrec : ∀ st, (rec st).1 = recB st) (G1 G2 : Graph)
    (l : List (Int × Int)) (st : State) :
    (solveSLoop rec G1 G2 l st).1 =
      l.any (fun p =>
        if (st.checkSemRules G1 G2 p.1 p.2 &&
            st.checkSynRules G1 G2 p.1 p.2) = true then
          recB (st.addNewPair p.1 p.2 (G1.pred p.1) (G2.pred p.2)
            (G1.succ p.1) (G2.succ p.2))
        else false) := by
  induction l with
  | nil => rfl
  | cons p ps ih =>
    simp only [solveSLoop, checkSemRulesS, checkSynRulesS, List.any_cons]
    by_cases hc : (st.checkSemRules G1 G2 p.1 p.2 &&
        st.checkSynRules G1 G2 p.1 p.2) = true
    · rw [if_pos hc, if_pos hc]
      cases hrr : (rec (st.addNewPair p.1 p.2 (G1.pred p.1) (G2.pred p.2)
          (G1.succ p.1) (G2.succ p.2))).1 with
      | false =>
        rw [if_neg Bool.false_ne_true]
        have hb : recB (st.addNewPair p.1 p.2 (G1.pred p.1) (G2.pred p.2)
            (G1.succ p.1) (G2.succ p.2)) = false := by
          rw [← hrec]
          exact hrr
        rw [hb, ih]
        rfl
      | true =>
        rw [if_pos rfl]
        have hb : recB (st.addNewPair p.1 p.2 (G1.pred p.1) (G2.pred p.2)
            (G1.succ p.1) (G2.succ p.2)) = true := by
          rw [← hrec]
          exact hrr
        rw [hb, Bool.true_or]
    · rw [if_neg hc, if_neg hc, ih]
      rfl

theorem solveS_agree (G1 G2 : Graph) :
    ∀ (fuel : Nat) (st : State),
      (solveS G1 G2 fuel st).1 = solve G1 G2 fuel st := by
  intro fuel
  induction fuel with
  | zero =>
    intro st
    rfl
  | succ f ih =>
    intro st
    simp only [solveS, solve, genCandiPairSetS]
    by_cases hc : st.M1.card = st.vertex_count
    · rw [if_pos hc, if_pos hc]
    · rw [if_neg hc, if_neg hc]
      exact solveSLoop_agree (solveS G1 G2 f) (solve G1 G2 f) ih G1 G2
        st.genCandiPairSet st

/-- Claim C9 (confirmed): the state a caller passes to `solve` is unchanged
when the call returns (each accepted candidate extends a fresh clone; no state
is mutated in place by backtracking), and the state-passing translation
computes the same boolean as the direct one.  The graphs are immutable values
in the embedding: no operation of the search writes to a `Graph`. -/
theorem c9_solve_frame (G1 G2 : Graph) (fuel : Nat) (s : State) :
    (solveS G1 G2 fuel s).2 = s ∧ (solveS G1 G2 fuel s).1 = solve G1 G2 fuel s :=
  ⟨solveS_frame G1 G2 fuel s, solveS_agree G1 G2 fuel s⟩
